import Mathlib

/-!
Verification of the setsuna language core (lexer keyword table, environment,
value model, evaluator and module loader) against its specification.

The development shallowly embeds the claim-relevant parts of the C++ sources:

* src/lexer.cpp       — keyword table, readIdentOrKeyword
* src/value.hpp       — the runtime value variant, Builtin, RecordValue
* src/evaluator.cpp   — Value::equals, Value::toString, the evaluator
                        (literals, identifiers, binary and unary operators,
                        let, assignment, functions, calls, lists, records,
                        blocks), declaration evaluation and the module loader
* src/environment.cpp — define, set, get, has over chained frames

Numeric conventions: C++ int64_t payloads are modelled as unconstrained Int
(all arithmetic paths below either pass a range guard that mirrors the C++
cast, or are exercised only inside the int64 range); C++ double values are
modelled as exact rational numbers together with an explicit round-to-nearest,
ties-to-even projection onto 53 significant bits, which is the IEEE-754
binary64 rounding that the hardware performs for the in-range, non-subnormal
values reachable here (int64 conversions, their sums, differences, products
and quotients).
-/

namespace Setsuna

/-- Error outcome of an embedded operation.  The C++ code signals failures by
throwing; `runtime` mirrors RuntimeError (and the plain std::runtime_error of
Value::toNumber), `lexParse` mirrors LexerError and ParseError, `badVariant`
mirrors the std::bad_variant_access raised by std::get on a wrong alternative,
`ub` marks paths whose C++ behaviour is undefined (integer cast of an
out-of-range or NaN double), and `fuel` is a model-only artifact of the
fuelled interpreter (no C++ counterpart; theorems never rely on it). -/
inductive Err where
  | runtime (msg : String)
  | lexParse
  | badVariant
  | ub
  | fuel
deriving Repr, DecidableEq

/-! ## Binary64 rounding model

`Value::toNumber` converts int64 payloads with static_cast to double, and
`Evaluator::evalBinaryOp` performs all arithmetic on doubles before casting
integer results back with static_cast to int64_t.  The following functions
model that pipeline exactly, over ℚ. -/

/-- Number of binary digits of n minus one, i.e. the exponent of the leading
bit: for 1 ≤ n, 2 ^ nbitsAux fuel n ≤ n < 2 ^ (nbitsAux fuel n + 1) whenever
n ≤ fuel.  Fuel makes the recursion structural so that the kernel can
evaluate it. -/
def nbitsAux : Nat → Nat → Nat
  | 0, _ => 0
  | fuel + 1, n => if n ≤ 1 then 0 else nbitsAux fuel (n / 2) + 1

/-- Exponent of the leading binary digit of n (0 for n ≤ 1). -/
def nbits (n : Nat) : Nat := nbitsAux n n

/-- Round a rational to the nearest integer, ties to even — the IEEE-754
default rounding applied at integer granularity. -/
def rne (q : ℚ) : ℤ :=
  let f := ⌊q⌋
  let frac := q - (f : ℚ)
  if frac < 1/2 then f
  else if 1/2 < frac then f + 1
  else if f % 2 = 0 then f else f + 1

/-- Binary exponent of a nonzero rational: the unique e with
2 ^ e ≤ |q| < 2 ^ (e + 1).  Computed from the bit lengths of numerator and
denominator so that the kernel can evaluate it. -/
def qexp (q : ℚ) : ℤ :=
  let a := q.num.natAbs
  let d := q.den
  let ba := nbits a
  let bd := nbits d
  if 2 ^ bd * a < 2 ^ ba * d then (ba : ℤ) - (bd : ℤ) - 1 else (ba : ℤ) - (bd : ℤ)

/-- Multiply a rational by an integer power of two (kernel-evaluable form of
q * 2 ^ k). -/
def mulPow2 (q : ℚ) (k : ℤ) : ℚ :=
  if 0 ≤ k then q * (2 : ℚ) ^ k.toNat else q / (2 : ℚ) ^ (-k).toNat

/-- Round a rational to the nearest IEEE-754 binary64 value (53 significant
bits, round to nearest, ties to even), returned as the exact rational it
denotes.  Overflow to infinity and the subnormal range are not modelled; no
value reachable from the embedded arithmetic lies in either range. -/
def flQ (q : ℚ) : ℚ :=
  if q = 0 then 0
  else
    let e := qexp q
    mulPow2 (rne (mulPow2 q (52 - e)) : ℚ) (e - 52)

/-- Truncation toward zero, as performed by a C++ static_cast from double to
an integer type. -/
def truncQ (q : ℚ) : ℤ :=
  if 0 ≤ q then ⌊q⌋ else -⌊-q⌋

/-- static_cast to int64_t of a double holding the value q: truncation toward
zero, undefined behaviour when the truncated value is unrepresentable. -/
def castI64 (q : ℚ) : Except Err Int :=
  let t := truncQ q
  if t < -(2 ^ 63) ∨ 2 ^ 63 ≤ t then .error .ub else .ok t

/-- IEEE-754 double addition: correctly rounded exact sum. -/
def dAdd (l r : ℚ) : ℚ := flQ (l + r)

/-- IEEE-754 double subtraction: correctly rounded exact difference. -/
def dSub (l r : ℚ) : ℚ := flQ (l - r)

/-- IEEE-754 double multiplication: correctly rounded exact product. -/
def dMul (l r : ℚ) : ℚ := flQ (l * r)

/-- IEEE-754 double division: correctly rounded exact quotient. -/
def dDiv (l r : ℚ) : ℚ := flQ (l / r)

/-- std::fmod on doubles: l - trunc(l / r) * r computed exactly (fmod is an
exact operation on binary64 values). -/
def dFmod (l r : ℚ) : ℚ := l - (truncQ (l / r) : ℚ) * r

/-- Conversion of an int64 payload to double (static_cast<double>(int64_t)):
round to nearest, ties to even. -/
def i64ToD (n : Int) : ℚ := flQ (n : ℚ)

/-! ## Lexer keyword classification (src/lexer.hpp, src/lexer.cpp)

Only the identifier/keyword path of the lexer is embedded; it is the entire
code base cited by the keyword-classification claim (the table at
lexer.cpp:7-18 and readIdentOrKeyword at lexer.cpp:184-198). -/

/-- TokenType from src/lexer.hpp. -/
inductive TokType where
  | INT | FLOAT | STRING | FSTRING | IDENT
  | LET | CONST | FN | IF | ELSE | MATCH | WHILE | FOR | IN | AS
  | TYPE | MODULE | IMPORT | TRUE | FALSE
  | PLUS | MINUS | STAR | SLASH | PERCENT
  | EQ | NEQ | LT | GT | LTE | GTE | AND | OR | NOT | ASSIGN | ARROW | PIPE
  | LPAREN | RPAREN | LBRACE | RBRACE | LBRACKET | RBRACKET | MAP_START
  | COMMA | COLON | DOUBLE_COLON | SEMICOLON | DOT | DOTDOTDOT
  | NEWLINE | END_OF_FILE
deriving Repr, DecidableEq

/-- The lexer's keyword table (the static map at the top of src/lexer.cpp),
with exactly the entries that appear in the source. -/
def keywords : List (String × TokType) :=
  [("let", .LET), ("fn", .FN), ("if", .IF), ("else", .ELSE),
   ("match", .MATCH), ("type", .TYPE), ("module", .MODULE),
   ("import", .IMPORT), ("true", .TRUE), ("false", .FALSE)]

/-- A token as far as the keyword claim needs it: its type and, for
identifiers, the spelled text.  Source locations are not modelled. -/
structure MToken where
  ty : TokType
  text : Option String := none
deriving Repr, DecidableEq

/-- Character class used by the identifier loop (std::isalnum in the C
locale, or underscore). -/
def isIdentChar (c : Char) : Bool := c.isAlphanum || c == '_'

/-- Lexer::readIdentOrKeyword: consume the maximal identifier run, then
classify it through the keyword table; anything not in the table becomes an
IDENT token carrying its spelling. -/
def readIdentOrKeyword (cs : List Char) : MToken × List Char :=
  let identChars := cs.takeWhile isIdentChar
  let rest := cs.dropWhile isIdentChar
  let ident := String.mk identChars
  match keywords.find? (fun kv => kv.1 == ident) with
  | some kv => (⟨kv.2, none⟩, rest)
  | none => (⟨.IDENT, some ident⟩, rest)

/-! ## Syntax tree (src/ast.hpp)

The claim-relevant fragment of ExprVariant and DeclVariant.  Omitted
expression forms (interpolated strings, if/while/for, tuples, maps, field
access, match, constructor calls, module access) are not mentioned by any
claim.  Parameter type annotations and return types are dropped: the
evaluator reads only the parameter names (evalFnDef, evalLambda). -/

/-- BinaryOp::Op. -/
inductive BinOp where
  | add | sub | mul | div | mod
  | eq | neq | lt | gt | lte | gte
  | band | bor
deriving Repr, DecidableEq

/-- UnaryOp::Op. -/
inductive UnOp where
  | neg | lnot
deriving Repr, DecidableEq

/-- Expressions (ExprVariant fragment).  Float literal payloads are the exact
rational value of the C++ double payload. -/
inductive Expr where
  | intLit (value : Int)
  | floatLit (value : ℚ)
  | strLit (value : String)
  | boolLit (value : Bool)
  | ident (name : String)
  | binary (op : BinOp) (left right : Expr)
  | unary (op : UnOp) (operand : Expr)
  | letE (name : String) (value : Expr) (isConst : Bool)
  | assign (name : String) (value : Expr)
  | fnDef (name : String) (params : List String) (body : Expr)
  | lambda (params : List String) (body : Expr)
  | call (callee : Expr) (args : List Expr)
  | listE (elements : List Expr)
  | recordE (fields : List (String × Expr))
  | block (exprs : List Expr)
deriving Repr

/-- TypeConstructor from src/ast.hpp; the evaluator reads only the number of
constructor fields (ctor.fields.empty() and ctor.fields.size()), so the field
type expressions are modelled by their count. -/
structure TypeCtorA where
  name : String
  fieldCount : Nat
deriving Repr, DecidableEq

/-- TypeDef from src/ast.hpp. -/
structure TypeDefA where
  name : String
  typeParams : List String
  constructors : List TypeCtorA
deriving Repr, DecidableEq

/-- DeclVariant from src/ast.hpp. -/
inductive DeclA where
  | expr (e : Expr)
  | typeDef (td : TypeDefA)
  | moduleDef (name : String) (body : List Expr)
  | importDecl (moduleName : String) (aliasName : Option String)
deriving Repr

/-- Program from src/ast.hpp: the ordered declaration list. -/
abbrev ProgramA := List DeclA

/-! ## Unordered containers (std::unordered_map, std::unordered_set)

Both RecordValue and the environment tables use std::unordered_map.  The map
is modelled as an association list with distinct keys; find and overwrite are
order-insensitive and faithful for any std::unordered_map.  Iteration order
(observable only through Value::toString on records) is modelled after
libstdc++, whose hashtable links every newly inserted key at the front of its
single node list, so iteration visits keys in reverse insertion order when
their hashes do not collide; the point the record-order claim turns on is that
iteration order is the container's internal order, not insertion order. -/

/-- unordered_map find: the value stored under an exactly matching key. -/
def umFind? {V : Type} : List (String × V) → String → Option V
  | [], _ => none
  | (k, v) :: rest, key => if k == key then some v else umFind? rest key

/-- unordered_map operator[ ] followed by assignment: overwrite in place if
the key is present, otherwise link the new key at the front. -/
def umInsert {V : Type} (m : List (String × V)) (key : String) (v : V) :
    List (String × V) :=
  if (m.any fun kv => kv.1 == key) then umOverwrite m key v else (key, v) :: m
where
  /-- Overwrite the value stored under an existing key, in place. -/
  umOverwrite : List (String × V) → String → V → List (String × V)
    | [], _, _ => []
    | (k, w) :: rest, key, v =>
      if k == key then (k, v) :: rest else (k, w) :: umOverwrite rest key v

/-- unordered_set count(name) > 0. -/
def usMem : List String → String → Bool
  | [], _ => false
  | k :: rest, key => k == key || usMem rest key

/-- unordered_set insert. -/
def usInsert (s : List String) (key : String) : List String :=
  if usMem s key then s else key :: s

/-- unordered_set erase. -/
def usErase : List String → String → List String
  | [], _ => []
  | k :: rest, key => if k == key then rest else k :: usErase rest key

/-! ## Runtime values (src/value.hpp) -/

/-- The body of a Builtin's std::function.  The evaluator itself creates
builtins only in evalTypeDef, where the body constructs an ADT value from the
raw argument list; the library builtins of builtins.cpp are outside the
claims' scope and are not modelled. -/
inductive BuiltinImpl where
  | ctor (typeName ctorName : String)
deriving Repr, DecidableEq

/-- ValueVariant from src/value.hpp.  Record fields are the unordered_map
model above.  A closure's captured environment is a frame index into the
evaluator's store.  A thunk's payload is its memoized result (none while
unevaluated); Thunk::force throws when unevaluated and no code path ever
constructs a thunk. -/
inductive Value where
  | unit
  | int (v : Int)
  | float (v : ℚ)
  | bool (v : Bool)
  | str (v : String)
  | list (elements : List Value)
  | tuple (elements : List Value)
  | record (fields : List (String × Value))
  | map (entries : List (Value × Value))
  | closure (params : List String) (body : Expr) (env : Nat)
  | builtin (name : String) (arity : Int) (impl : BuiltinImpl)
  | adt (typeName ctorName : String) (fields : List Value)
  | thunk (cached : Option Value)
deriving Repr

/-- force from src/evaluator.cpp: unwrap thunks; an unevaluated thunk throws
(Thunk::force, "Thunk evaluation not yet implemented"). -/
def force : Value → Except Err Value
  | .thunk none => .error (.runtime "Thunk evaluation not yet implemented")
  | .thunk (some v) => force v
  | v => .ok v

mutual

/-- Value::equals from src/evaluator.cpp:134-199.  Values of different tags
are unequal; CLOSURE, BUILTIN and THUNK fall into the default branch and are
equal to nothing, including themselves.  ADT comparison checks the
constructor name and fields (the type name is not compared, exactly as in the
source). -/
def Value.equals : Value → Value → Bool
  | .unit, .unit => true
  | .int a, .int b => a == b
  | .float a, .float b => a == b
  | .bool a, .bool b => a == b
  | .str a, .str b => a == b
  | .list a, .list b => equalsList a b
  | .tuple a, .tuple b => equalsList a b
  | .record a, .record b =>
    a.length == b.length && equalsRecordSub a b
  | .map a, .map b =>
    a.length == b.length && equalsMapSub a b
  | .adt _ ca fa, .adt _ cb fb => ca == cb && equalsList fa fb
  | _, _ => false
termination_by a b => sizeOf a + sizeOf b
decreasing_by all_goals (simp_wf; try omega)

/-- Same length and pointwise equal (the size check plus indexed loop used
for LIST, TUPLE and ADT fields). -/
def equalsList : List Value → List Value → Bool
  | [], [] => true
  | a :: as', b :: bs' => a.equals b && equalsList as' bs'
  | _, _ => false
termination_by a b => sizeOf a + sizeOf b
decreasing_by all_goals (simp_wf; try omega)

/-- The RECORD loop: every field of the left record must be found in the
right one (exact key) with an equal value. -/
def equalsRecordSub : List (String × Value) → List (String × Value) → Bool
  | [], _ => true
  | (k, v) :: rest, b => equalsRecordFind v k b && equalsRecordSub rest b
termination_by a b => sizeOf a + sizeOf b
decreasing_by all_goals (simp_wf; try omega)

/-- unordered_map find on the right record followed by the value
comparison. -/
def equalsRecordFind (v : Value) (k : String) : List (String × Value) → Bool
  | [] => false
  | (k', v') :: rest => if k' == k then v.equals v' else equalsRecordFind v k rest
termination_by b => sizeOf v + sizeOf b
decreasing_by all_goals (simp_wf; try omega)

/-- The MAP loop: every entry of the left map must be found in the right one
(key compared with Value::equals) with an equal value. -/
def equalsMapSub : List (Value × Value) → List (Value × Value) → Bool
  | [], _ => true
  | (k, v) :: rest, b => equalsMapFind v k b && equalsMapSub rest b
termination_by a b => sizeOf a + sizeOf b
decreasing_by all_goals (simp_wf; try omega)

/-- MapValue::find on the right map (first entry whose key equals the probe)
followed by the value comparison. -/
def equalsMapFind (v : Value) (k : Value) : List (Value × Value) → Bool
  | [] => false
  | (k', v') :: rest => if k'.equals k then v.equals v' else equalsMapFind v k rest
termination_by b => sizeOf v + sizeOf k + sizeOf b
decreasing_by all_goals (simp_wf; try omega)

end

/-- Fixed-point rendering of a double with six fractional digits, as produced
by std::to_string(double): round the value at the sixth decimal (the printf
family rounds to nearest) and print with the sign of the value. -/
def floatFixed6 (q : ℚ) : String :=
  let n := (rne (q * 1000000)).natAbs
  let ip := n / 1000000
  let fp := n % 1000000
  let fps := Nat.repr fp
  let pad := String.mk (List.replicate (6 - fps.length) '0')
  (if q < 0 then "-" else "") ++ Nat.repr ip ++ "." ++ pad ++ fps

/-- The FLOAT branch of Value::toString: std::to_string, then erase the
trailing zeros, then restore one fractional digit if the string now ends in
the decimal point. -/
def floatToStr (q : ℚ) : String :=
  let s := (floatFixed6 q).dropRightWhile (fun c => c == '0')
  if s.endsWith "." then s ++ "0" else s

mutual

/-- Value::toString from src/evaluator.cpp:54-132.  Records and maps are
printed in the iteration order of their containers (for records, the
unordered_map order modelled above — not insertion order). -/
def Value.toStr : Value → String
  | .unit => "()"
  | .int v => Int.repr v
  | .float v => floatToStr v
  | .bool v => if v then "true" else "false"
  | .str v => "\"" ++ v ++ "\""
  | .list es => "[" ++ toStrElems es true ++ "]"
  | .tuple es => "(" ++ toStrElems es true ++ ")"
  | .record fs => "\x7b " ++ toStrRecord fs true ++ " \x7d"
  | .map es => "%\x7b " ++ toStrMap es true ++ " \x7d"
  | .closure _ _ _ => "<fn>"
  | .builtin name _ _ => "<builtin:" ++ name ++ ">"
  | .adt _ ctorName fields =>
    if fields.isEmpty then ctorName
    else ctorName ++ "(" ++ toStrElems fields true ++ ")"
  | .thunk _ => "<thunk>"

/-- Comma-joined element rendering (the loops with a first-element flag). -/
def toStrElems : List Value → Bool → String
  | [], _ => ""
  | v :: rest, first =>
    (if first then "" else ", ") ++ v.toStr ++ toStrElems rest false

/-- Record field rendering, in container order. -/
def toStrRecord : List (String × Value) → Bool → String
  | [], _ => ""
  | (k, v) :: rest, first =>
    (if first then "" else ", ") ++ k ++ ": " ++ v.toStr ++ toStrRecord rest false

/-- Map entry rendering, in container order. -/
def toStrMap : List (Value × Value) → Bool → String
  | [], _ => ""
  | (k, v) :: rest, first =>
    (if first then "" else ", ") ++ k.toStr ++ ": " ++ v.toStr ++ toStrMap rest false

end

/-! Language-value well-formedness, used by the equality-reflexivity claim.
A value is reflOk when it contains no closure, builtin or thunk, its records
have distinct field names and its maps have pairwise value-unequal keys —
exactly the shape of every callable-free value the evaluator and the map
builtins construct (unordered_map keys are unique; MapValue::set overwrites a
structurally equal key in place). -/

mutual

/-- Callable-free language values with well-formed records and maps. -/
def Value.reflOk : Value → Bool
  | .unit => true
  | .int _ => true
  | .float _ => true
  | .bool _ => true
  | .str _ => true
  | .list es => reflOkList es
  | .tuple es => reflOkList es
  | .record fs => reflOkRecord fs
  | .map es => reflOkMap es
  | .adt _ _ fields => reflOkList fields
  | .closure _ _ _ => false
  | .builtin _ _ _ => false
  | .thunk _ => false
termination_by v => sizeOf v
decreasing_by all_goals (simp_wf; try omega)

/-- All elements reflOk. -/
def reflOkList : List Value → Bool
  | [] => true
  | v :: rest => v.reflOk && reflOkList rest
termination_by vs => sizeOf vs
decreasing_by all_goals (simp_wf; try omega)

/-- All field values reflOk and field names distinct. -/
def reflOkRecord : List (String × Value) → Bool
  | [] => true
  | (k, v) :: rest =>
    v.reflOk && !(rest.any (fun kv => kv.1 == k)) && reflOkRecord rest
termination_by fs => sizeOf fs
decreasing_by all_goals (simp_wf; try omega)

/-- All keys and values reflOk and keys pairwise unequal under
Value::equals. -/
def reflOkMap : List (Value × Value) → Bool
  | [] => true
  | (k, v) :: rest =>
    k.reflOk && v.reflOk && keyAbsent k rest && reflOkMap rest
termination_by es => sizeOf es
decreasing_by all_goals (simp_wf; try omega)

/-- No entry key of the list is Value::equals-equal to k, in either
comparison direction. -/
def keyAbsent (k : Value) : List (Value × Value) → Bool
  | [] => true
  | (k', _) :: rest => !(k'.equals k) && !(k.equals k') && keyAbsent k rest
termination_by es => sizeOf es
decreasing_by all_goals (simp_wf; try omega)

end

/-- Value::isString. -/
def Value.isString : Value → Bool
  | .str _ => true
  | _ => false

/-- Value::isFloat. -/
def Value.isFloat : Value → Bool
  | .float _ => true
  | _ => false

/-- std::get on the bool alternative (Value::asBool): throws
std::bad_variant_access unless the value is a Bool. -/
def asBoolV : Value → Except Err Bool
  | .bool b => .ok b
  | _ => .error .badVariant

/-- std::get on the string alternative (Value::asString). -/
def asStringV : Value → Except Err String
  | .str s => .ok s
  | _ => .error .badVariant

/-- Value::toNumber from src/value.hpp:147-151: ints are converted to double
(rounding to 53 bits), floats are returned as they are, anything else throws
std::runtime_error("Not a number"). -/
def toNumber : Value → Except Err ℚ
  | .int n => .ok (i64ToD n)
  | .float q => .ok q
  | _ => .error (.runtime "Not a number")

/-! ## Environment (src/environment.hpp, src/environment.cpp)

Environments are shared_ptr-linked frames mutated in place; the embedding
stores all frames in one list addressed by index, with parent links as
indices.  Frames created by Environment::extend always point to an
already-existing frame, so every parent index is smaller than the index of
the frame holding it and parent chains are acyclic; the chain walks below
take an explicit depth bound (one more than the store size) that such chains
can never exhaust. -/

/-- One Environment object: bindings, const-marked names, type table, module
table and the parent link. -/
structure Frame where
  bindings : List (String × Value) := []
  constNames : List String := []
  types : List (String × TypeDefA) := []
  modules : List (String × Nat) := []
  parent : Option Nat := none

/-- Environment::define from src/environment.cpp:7-15: fails only when the
incoming binding is not const and the name is already const-marked in this
frame; otherwise overwrites the binding and, for const bindings, marks the
name. -/
def Frame.define (f : Frame) (name : String) (v : Value) (isConst : Bool) :
    Except Err Frame :=
  if !isConst && usMem f.constNames name then
    .error (.runtime ("Cannot redeclare const '" ++ name ++ "' with let"))
  else
    .ok { f with
          bindings := umInsert f.bindings name v,
          constNames := if isConst then usInsert f.constNames name else f.constNames }

/-- Environment::get: walk the parent chain, first frame containing the name
wins. -/
def envGet (frames : List Frame) : Nat → Nat → String → Option Value
  | 0, _, _ => none
  | depth + 1, i, name =>
    match frames[i]? with
    | none => none
    | some f =>
      match umFind? f.bindings name with
      | some v => some v
      | none =>
        match f.parent with
        | some p => envGet frames depth p name
        | none => none

/-- Environment::has: walk the parent chain. -/
def envHas (frames : List Frame) : Nat → Nat → String → Bool
  | 0, _, _ => false
  | depth + 1, i, name =>
    match frames[i]? with
    | none => false
    | some f =>
      if usMem (f.bindings.map Prod.fst) name then true
      else
        match f.parent with
        | some p => envHas frames depth p name
        | none => false

/-- Environment::set from src/environment.cpp:17-32: walk the chain, mutate
the first binding found unless it is const-marked; fail with an
undefined-variable error when the chain runs out. -/
def envSet (frames : List Frame) : Nat → Nat → String → Value →
    Except Err (List Frame)
  | 0, _, name, _ => .error (.runtime ("Undefined variable: " ++ name))
  | depth + 1, i, name, v =>
    match frames[i]? with
    | none => .error (.runtime ("Undefined variable: " ++ name))
    | some f =>
      match umFind? f.bindings name with
      | some _ =>
        if usMem f.constNames name then
          .error (.runtime ("Cannot reassign const variable '" ++ name ++ "'"))
        else
          .ok (frames.set i { f with bindings := umInsert f.bindings name v })
      | none =>
        match f.parent with
        | some p => envSet frames depth p name v
        | none => .error (.runtime ("Undefined variable: " ++ name))

/-! ## Evaluator state (src/evaluator.hpp) -/

/-- The mutable members of Evaluator: the frame store (all Environment
objects ever created), env_ (the current environment), basePath_,
loadingModules_ and moduleCache_. -/
structure EvalState where
  frames : List Frame
  env : Nat
  basePath : String := ""
  loadingModules : List String := []
  moduleCache : List (String × Nat) := []

/-- Environment::extend: allocate a fresh child frame of the given parent. -/
def pushFrame (st : EvalState) (parent : Nat) : Nat × EvalState :=
  (st.frames.length, { st with frames := st.frames ++ [{ parent := some parent }] })

/-- env->define against the frame with the given index. -/
def defineVar (st : EvalState) (envId : Nat) (name : String) (v : Value)
    (isConst : Bool) : Except Err EvalState :=
  match st.frames[envId]? with
  | none => .error (.runtime "invalid environment")
  | some f =>
    match f.define name v isConst with
    | .error e => .error e
    | .ok f' => .ok { st with frames := st.frames.set envId f' }

/-- Environment::defineType against the frame with the given index (never
fails). -/
def defineTypeIn (st : EvalState) (envId : Nat) (name : String)
    (td : TypeDefA) : EvalState :=
  match st.frames[envId]? with
  | none => st
  | some f => { st with frames := st.frames.set envId { f with types := umInsert f.types name td } }

/-- Environment::defineModule against the frame with the given index (never
fails). -/
def defineModuleIn (st : EvalState) (envId : Nat) (name : String)
    (modId : Nat) : EvalState :=
  match st.frames[envId]? with
  | none => st
  | some f => { st with frames := st.frames.set envId { f with modules := umInsert f.modules name modId } }

/-- The body invocation of a Builtin (builtin.fn(args) in evalCall).  The
only builtins the embedding can construct are the ADT constructors installed
by evalTypeDef, whose body wraps the raw argument list in an ADT value
without inspecting its length. -/
def applyBuiltin : BuiltinImpl → List Value → Except Err Value
  | .ctor typeName ctorName, args => .ok (.adt typeName ctorName args)

/-- The tail of Evaluator::evalBinaryOp (src/evaluator.cpp:501-541), after
both operands have been evaluated and forced: string concatenation when the
operator is + and the left operand is a string, structural equality for ==
and !=, then double arithmetic and comparisons through Value::toNumber. -/
def binOpValues (op : BinOp) (left right : Value) : Except Err Value :=
  if op == .add && left.isString then
    match asStringV left, asStringV right with
    | .ok ls, .ok rs => .ok (.str (ls ++ rs))
    | .error e, _ => .error e
    | _, .error e => .error e
  else if op == .eq then .ok (.bool (left.equals right))
  else if op == .neq then .ok (.bool (!(left.equals right)))
  else
    match toNumber left with
    | .error e => .error e
    | .ok l =>
      match toNumber right with
      | .error e => .error e
      | .ok r =>
        let useFloat := left.isFloat || right.isFloat
        match op with
        | .add =>
          if useFloat then .ok (.float (dAdd l r)) else (castI64 (dAdd l r)).map .int
        | .sub =>
          if useFloat then .ok (.float (dSub l r)) else (castI64 (dSub l r)).map .int
        | .mul =>
          if useFloat then .ok (.float (dMul l r)) else (castI64 (dMul l r)).map .int
        | .div =>
          if r = 0 then .error (.runtime "Division by zero")
          else if useFloat then .ok (.float (dDiv l r)) else (castI64 (dDiv l r)).map .int
        | .mod =>
          if r = 0 then .error .ub else (castI64 (dFmod l r)).map .int
        | .lt => .ok (.bool (decide (l < r)))
        | .gt => .ok (.bool (decide (r < l)))
        | .lte => .ok (.bool (decide (l ≤ r)))
        | .gte => .ok (.bool (decide (r ≤ l)))
        | _ => .error (.runtime "Unknown binary operator")

/-- Outcome of resolving, reading and parsing a module file, abstracting the
file system, the lexer and the parser: none models resolveModulePath finding
no file; readFail an unreadable file; lexParseFail a file whose contents fail
to tokenize or parse; parsed a file in directory dir whose contents parse to
the given program. -/
inductive FileOutcome where
  | readFail
  | lexParseFail
  | parsed (dir : String) (p : ProgramA)

/-- The external world seen by the module loader: for a given basePath_ and
module name, the outcome of resolution, reading and parsing. -/
abbrev FileSys := String → String → Option FileOutcome

/-- The parameter-binding loop of evalCall (callEnv->define for each
parameter); lengths are equal when it is reached. -/
def bindParams (envId : Nat) : List String → List Value → EvalState →
    Except Err Unit × EvalState
  | p :: ps, v :: vs, st =>
    match defineVar st envId p v false with
    | .error e => (.error e, st)
    | .ok st' => bindParams envId ps vs st'
  | _, _, st => (.ok (), st)

/-- The constructor-installation loop of evalTypeDef: nullary constructors
are bound to a pre-built ADT value, the rest to a builtin of the matching
declared arity whose body builds the ADT value. -/
def defineCtors (envId : Nat) (typeName : String) : List TypeCtorA →
    EvalState → Except Err Unit × EvalState
  | [], st => (.ok (), st)
  | c :: rest, st =>
    let v := if c.fieldCount == 0 then Value.adt typeName c.name []
             else Value.builtin c.name (c.fieldCount : Int) (.ctor typeName c.name)
    match defineVar st envId c.name v false with
    | .error e => (.error e, st)
    | .ok st' => defineCtors envId typeName rest st'

/-! ## The evaluator (src/evaluator.cpp)

Every function threads the evaluator state and returns the current state even
on error (a C++ throw leaves all mutations made so far in place).  The fuel
argument makes the two non-structural recursions (a call entering a closure
body, the loader evaluating a loaded file) terminate in the model; running
out of fuel yields the model-only Err.fuel. -/

mutual

/-- Evaluator::eval(ExprPtr, EnvPtr) with the dispatch of
src/evaluator.cpp:359-422 and the per-form functions inlined at their call
sites.  Fuel is consumed at every entry so that the mutual recursion is
structural; a concrete evaluation merely needs enough fuel. -/
def evalE (fs : FileSys) : Nat → Expr → Nat → EvalState →
    Except Err Value × EvalState
  | 0, _, _, st => (.error .fuel, st)
  | fuel + 1, e, env, st =>
    match e with
    | .intLit v => (.ok (.int v), st)
    | .floatLit v => (.ok (.float v), st)
    | .strLit v => (.ok (.str v), st)
    | .boolLit v => (.ok (.bool v), st)
    | .ident name =>
      match envGet st.frames (st.frames.length + 1) env name with
      | none => (.error (.runtime ("Undefined variable: " ++ name)), st)
      | some v => (force v, st)
    | .binary op l r =>
      if op == .band then
        match evalE fs fuel l env st with
        | (.error err, st1) => (.error err, st1)
        | (.ok lv, st1) =>
          match force lv with
          | .error err => (.error err, st1)
          | .ok lv' =>
            match asBoolV lv' with
            | .error err => (.error err, st1)
            | .ok b => if !b then (.ok (.bool false), st1) else evalE fs fuel r env st1
      else if op == .bor then
        match evalE fs fuel l env st with
        | (.error err, st1) => (.error err, st1)
        | (.ok lv, st1) =>
          match force lv with
          | .error err => (.error err, st1)
          | .ok lv' =>
            match asBoolV lv' with
            | .error err => (.error err, st1)
            | .ok b => if b then (.ok (.bool true), st1) else evalE fs fuel r env st1
      else
        match evalE fs fuel l env st with
        | (.error err, st1) => (.error err, st1)
        | (.ok lv, st1) =>
          match force lv with
          | .error err => (.error err, st1)
          | .ok lv' =>
            match evalE fs fuel r env st1 with
            | (.error err, st2) => (.error err, st2)
            | (.ok rv, st2) =>
              match force rv with
              | .error err => (.error err, st2)
              | .ok rv' => (binOpValues op lv' rv', st2)
    | .unary op operand =>
      match evalE fs fuel operand env st with
      | (.error err, st1) => (.error err, st1)
      | (.ok v, st1) =>
        match force v with
        | .error err => (.error err, st1)
        | .ok v' =>
          match op with
          | .neg =>
            match v' with
            | .int n => (.ok (.int (-n)), st1)
            | .float q => (.ok (.float (-q)), st1)
            | _ => (.error (.runtime "Cannot negate non-number"), st1)
          | .lnot =>
            match asBoolV v' with
            | .error err => (.error err, st1)
            | .ok b => (.ok (.bool (!b)), st1)
    | .letE name value isConst =>
      match evalE fs fuel value env st with
      | (.error err, st1) => (.error err, st1)
      | (.ok v, st1) =>
        match defineVar st1 env name v isConst with
        | .error err => (.error err, st1)
        | .ok st2 => (.ok v, st2)
    | .assign name value =>
      if !envHas st.frames (st.frames.length + 1) env name then
        (.error (.runtime ("Undefined variable: " ++ name)), st)
      else
        match evalE fs fuel value env st with
        | (.error err, st1) => (.error err, st1)
        | (.ok v, st1) =>
          match envSet st1.frames (st1.frames.length + 1) env name v with
          | .error err => (.error err, st1)
          | .ok frames' => (.ok v, { st1 with frames := frames' })
    | .fnDef name params body =>
      let cl := Value.closure params body env
      match defineVar st env name cl false with
      | .error err => (.error err, st)
      | .ok st1 => (.ok cl, st1)
    | .lambda params body => (.ok (.closure params body env), st)
    | .call callee args =>
      match evalE fs fuel callee env st with
      | (.error err, st1) => (.error err, st1)
      | (.ok cv, st1) =>
        match force cv with
        | .error err => (.error err, st1)
        | .ok cv' =>
          match evalArgs fs fuel args env st1 with
          | (.error err, st2) => (.error err, st2)
          | (.ok argv, st2) =>
            match cv' with
            | .builtin _ _ impl => (applyBuiltin impl argv, st2)
            | .closure params body cenv =>
              if argv.length != params.length then
                (.error (.runtime ("Wrong number of arguments: expected " ++
                  Nat.repr params.length ++ ", got " ++ Nat.repr argv.length)), st2)
              else
                let (callEnv, st3) := pushFrame st2 cenv
                match bindParams callEnv params argv st3 with
                | (.error err, st4) => (.error err, st4)
                | (.ok _, st4) => evalE fs fuel body callEnv st4
            | _ => (.error (.runtime "Cannot call non-function"), st2)
    | .listE elements =>
      match evalArgs fs fuel elements env st with
      | (.error err, st1) => (.error err, st1)
      | (.ok vs, st1) => (.ok (.list vs), st1)
    | .recordE fields =>
      match evalFieldsE fs fuel fields [] env st with
      | (.error err, st1) => (.error err, st1)
      | (.ok rec', st1) => (.ok (.record rec'), st1)
    | .block exprs =>
      let (blockEnv, st1) := pushFrame st env
      evalBlockItems fs fuel exprs Value.unit blockEnv st1

/-- The left-to-right argument loop of evalCall / evalListExpr. -/
def evalArgs (fs : FileSys) : Nat → List Expr → Nat → EvalState →
    Except Err (List Value) × EvalState
  | 0, _, _, st => (.error .fuel, st)
  | fuel + 1, es, env, st =>
    match es with
    | [] => (.ok [], st)
    | e :: rest =>
      match evalE fs fuel e env st with
      | (.error err, st1) => (.error err, st1)
      | (.ok v, st1) =>
        match evalArgs fs fuel rest env st1 with
        | (.error err, st2) => (.error err, st2)
        | (.ok vs, st2) => (.ok (v :: vs), st2)

/-- The field loop of evalRecordExpr: rec.fields[name] = eval(expr) in source
order. -/
def evalFieldsE (fs : FileSys) : Nat → List (String × Expr) →
    List (String × Value) → Nat → EvalState →
    Except Err (List (String × Value)) × EvalState
  | 0, _, _, _, st => (.error .fuel, st)
  | fuel + 1, flds, acc, env, st =>
    match flds with
    | [] => (.ok acc, st)
    | (name, e) :: rest =>
      match evalE fs fuel e env st with
      | (.error err, st1) => (.error err, st1)
      | (.ok v, st1) => evalFieldsE fs fuel rest (umInsert acc name v) env st1

/-- The expression loop of evalBlock, carrying the running result (unit for
an empty block). -/
def evalBlockItems (fs : FileSys) : Nat → List Expr → Value → Nat →
    EvalState → Except Err Value × EvalState
  | 0, _, _, _, st => (.error .fuel, st)
  | fuel + 1, es, result, env, st =>
    match es with
    | [] => (.ok result, st)
    | e :: rest =>
      match evalE fs fuel e env st with
      | (.error err, st1) => (.error err, st1)
      | (.ok v, st1) => evalBlockItems fs fuel rest v env st1

/-- Evaluator::evalDecl from src/evaluator.cpp:424-438 together with
evalTypeDef, evalModuleDef and evalImportDecl. -/
def evalDecl (fs : FileSys) : Nat → DeclA → EvalState →
    Except Err Unit × EvalState
  | 0, _, st => (.error .fuel, st)
  | fuel + 1, d, st =>
    match d with
    | .expr e =>
      match evalE fs fuel e st.env st with
      | (.error err, st1) => (.error err, st1)
      | (.ok _, st1) => (.ok (), st1)
    | .typeDef td =>
      let st1 := defineTypeIn st st.env td.name td
      defineCtors st1.env td.name td.constructors st1
    | .moduleDef name body =>
      let (modEnv, st1) := pushFrame st st.env
      match evalModBody fs fuel body modEnv st1 with
      | (.error err, st2) => (.error err, st2)
      | (.ok _, st2) => (.ok (), defineModuleIn st2 st2.env name modEnv)
    | .importDecl name aliasName =>
      match loadModule fs fuel name st with
      | (.error err, st1) => (.error err, st1)
      | (.ok modId, st1) => (.ok (), defineModuleIn st1 st1.env (aliasName.getD name) modId)

/-- The expression loop of evalModuleDef (body evaluated in the module's
child frame, results discarded). -/
def evalModBody (fs : FileSys) : Nat → List Expr → Nat → EvalState →
    Except Err Unit × EvalState
  | 0, _, _, st => (.error .fuel, st)
  | fuel + 1, es, env, st =>
    match es with
    | [] => (.ok (), st)
    | e :: rest =>
      match evalE fs fuel e env st with
      | (.error err, st1) => (.error err, st1)
      | (.ok _, st1) => evalModBody fs fuel rest env st1

/-- The declaration loop of Evaluator::loadModule (values of expression
declarations discarded). -/
def evalDecls (fs : FileSys) : Nat → List DeclA → EvalState →
    Except Err Unit × EvalState
  | 0, _, st => (.error .fuel, st)
  | fuel + 1, ds, st =>
    match ds with
    | [] => (.ok (), st)
    | d :: rest =>
      match evalDecl fs fuel d st with
      | (.error err, st1) => (.error err, st1)
      | (.ok _, st1) => evalDecls fs fuel rest st1

/-- Evaluator::eval(Program) from src/evaluator.cpp:343-353: evaluate
declarations in order, carrying the value of the most recent expression
declaration (initially unit). -/
def evalProgramAux (fs : FileSys) : Nat → Value → List DeclA → EvalState →
    Except Err Value × EvalState
  | 0, _, _, st => (.error .fuel, st)
  | fuel + 1, result, ds, st =>
    match ds with
    | [] => (.ok result, st)
    | .expr e :: rest =>
      match evalE fs fuel e st.env st with
      | (.error err, st1) => (.error err, st1)
      | (.ok v, st1) => evalProgramAux fs fuel v rest st1
    | d :: rest =>
      match evalDecl fs fuel d st with
      | (.error err, st1) => (.error err, st1)
      | (.ok _, st1) => evalProgramAux fs fuel result rest st1

/-- Evaluator::loadModule from src/evaluator.cpp:270-341, step by step:
cache lookup; cyclic-import check; path resolution (failure throws before the
loading mark is set); marking the module as loading; file reading (failure
erases the mark and throws); lexing and parsing (failure throws with the mark
still set — the erase at line 294 only guards the read and the one at line
329 sits inside the later try/catch, so this path leaks the mark); creation
of the module frame as a child of env_; evaluation of the declarations with
env_ and basePath_ redirected; restoration of env_, basePath_ and the loading
set on both exits; cache insertion on success. -/
def loadModule (fs : FileSys) : Nat → String → EvalState →
    Except Err Nat × EvalState
  | 0, _, st => (.error .fuel, st)
  | fuel + 1, name, st =>
    match umFind? st.moduleCache name with
    | some envId => (.ok envId, st)
    | none =>
      if usMem st.loadingModules name then
        (.error (.runtime ("Cyclic import detected: " ++ name)), st)
      else
        match fs st.basePath name with
        | none => (.error (.runtime ("Cannot find module: " ++ name)), st)
        | some .readFail =>
          let st1 := { st with loadingModules := usInsert st.loadingModules name }
          (.error (.runtime ("Cannot read module file: " ++ name)),
           { st1 with loadingModules := usErase st1.loadingModules name })
        | some .lexParseFail =>
          (.error .lexParse, { st with loadingModules := usInsert st.loadingModules name })
        | some (.parsed dir p) =>
          let st1 := { st with loadingModules := usInsert st.loadingModules name }
          let (moduleEnvId, st2) := pushFrame st1 st1.env
          let oldBasePath := st1.basePath
          let oldEnv := st1.env
          let st3 := { st2 with basePath := dir, env := moduleEnvId }
          match evalDecls fs fuel p st3 with
          | (.error err, st4) =>
            (.error err,
             { st4 with basePath := oldBasePath, env := oldEnv,
                        loadingModules := usErase st4.loadingModules name })
          | (.ok _, st4) =>
            let st5 := { st4 with basePath := oldBasePath, env := oldEnv,
                                  loadingModules := usErase st4.loadingModules name }
            (.ok moduleEnvId,
             { st5 with moduleCache := umInsert st5.moduleCache name moduleEnvId })

end

/-- Evaluator::eval(Program): result starts at unit. -/
def evalProgram (fs : FileSys) (fuel : Nat) (p : ProgramA) (st : EvalState) :
    Except Err Value × EvalState :=
  evalProgramAux fs fuel Value.unit p st


/-- True when no declaration of the list is an expression declaration. -/
def noExprDecl (ds : List DeclA) : Bool :=
  ds.all fun d =>
    match d with
    | .expr _ => false
    | _ => true


/-- Frame-store evolution: evaluation only appends frames and never changes
the parent link of an existing frame (Environment::extend allocates, and
define/set/defineType/defineModule mutate only a frame's tables). -/
def framesOK (a b : List Frame) : Prop :=
  a.length ≤ b.length ∧
  ∀ i, i < a.length → (b[i]?.map Frame.parent) = (a[i]?.map Frame.parent)

/-- A file system with one module "M" whose file parses to an empty program. -/
def singleModuleFS : FileSys := fun _ n =>
  if n == "M" then some (.parsed "d" []) else none

/-- A file system in which module "A" imports "B" and "B" is empty: it
exercises an import issued while another module file is itself being
loaded. -/
def nestedModuleFS : FileSys := fun _ n =>
  if n == "A" then some (.parsed "dirA" [.importDecl "B" none])
  else if n == "B" then some (.parsed "dirB" []) else none

/-- An initial state with a single root frame. -/
def rootState : EvalState := { frames := [{}], env := 0 }

/-! # Theorems

First the supporting lemmas for the binary64 rounding model, then the
per-claim results. -/

theorem nbitsAux_spec (fuel : Nat) : ∀ n, 1 ≤ n → n ≤ fuel →
    2 ^ nbitsAux fuel n ≤ n ∧ n < 2 ^ (nbitsAux fuel n + 1) := by
  induction fuel with
  | zero => intro n h1 h2; omega
  | succ fuel ih =>
    intro n h1 h2
    by_cases hn : n ≤ 1
    · have hn1 : n = 1 := by omega
      simp [nbitsAux, hn1]
    · have hrec : nbitsAux (fuel + 1) n = nbitsAux fuel (n / 2) + 1 := by
        simp [nbitsAux, hn]
      have hd : 1 ≤ n / 2 := by omega
      have hf : n / 2 ≤ fuel := by omega
      obtain ⟨hl, hr⟩ := ih (n / 2) hd hf
      rw [hrec]
      have h2l : 2 ^ (nbitsAux fuel (n / 2) + 1) = 2 * 2 ^ nbitsAux fuel (n / 2) := by ring
      have h2r : 2 ^ (nbitsAux fuel (n / 2) + 1 + 1) = 4 * 2 ^ nbitsAux fuel (n / 2) := by ring
      omega

theorem nbits_spec {n : Nat} (h : 1 ≤ n) :
    2 ^ nbits n ≤ n ∧ n < 2 ^ (nbits n + 1) :=
  nbitsAux_spec n n h le_rfl

theorem rne_intCast (m : ℤ) : rne (m : ℚ) = m := by
  simp [rne]

theorem rne_err (q : ℚ) : |(rne q : ℚ) - q| ≤ 1 / 2 := by
  have hf0 : (0:ℚ) ≤ q - ⌊q⌋ := by
    have := Int.floor_le q; linarith
  have hf1 : q - ⌊q⌋ < 1 := by
    have := Int.lt_floor_add_one q; linarith
  simp only [rne]
  split
  · rw [abs_le]; constructor <;> linarith
  · split
    · push_cast; rw [abs_le]; constructor <;> linarith
    · split <;> (push_cast; rw [abs_le]; constructor <;> linarith)

theorem mulPow2_eq (q : ℚ) (k : ℤ) : mulPow2 q k = q * (2 : ℚ) ^ k := by
  rw [mulPow2]
  split
  · rw [← zpow_natCast (2:ℚ) k.toNat, Int.toNat_of_nonneg (by assumption)]
  · rw [← zpow_natCast (2:ℚ) (-k).toNat, Int.toNat_of_nonneg (by omega),
        zpow_neg, div_inv_eq_mul]

theorem qexp_spec {q : ℚ} (hq : q ≠ 0) :
    (2 : ℚ) ^ qexp q ≤ |q| ∧ |q| < (2 : ℚ) ^ (qexp q + 1) := by
  have ha1 : 1 ≤ q.num.natAbs := by
    have : q.num ≠ 0 := Rat.num_ne_zero.mpr hq
    omega
  have hd1 : 1 ≤ q.den := q.pos
  obtain ⟨hal, har⟩ := nbits_spec ha1
  obtain ⟨hdl, hdr⟩ := nbits_spec hd1
  have hDpos : (0 : ℚ) < (q.den : ℚ) := by exact_mod_cast hd1
  have habs : |q| = (q.num.natAbs : ℚ) / (q.den : ℚ) := by
    rw [Int.cast_natAbs]
    conv_lhs => rw [← Rat.num_div_den q]
    rw [abs_div, Nat.abs_cast, Int.cast_abs]
  have c1 : (2:ℚ) ^ ((nbits q.num.natAbs : ℤ)) = ((2 ^ nbits q.num.natAbs : ℕ) : ℚ) := by
    rw [zpow_natCast]; push_cast; ring
  have c1s : (2:ℚ) ^ ((nbits q.num.natAbs : ℤ) + 1) = ((2 ^ (nbits q.num.natAbs + 1) : ℕ) : ℚ) := by
    rw [show ((nbits q.num.natAbs : ℤ) + 1) = ((nbits q.num.natAbs + 1 : ℕ) : ℤ) by push_cast; ring,
        zpow_natCast]
    push_cast; ring
  have c2 : (2:ℚ) ^ ((nbits q.den : ℤ)) = ((2 ^ nbits q.den : ℕ) : ℚ) := by
    rw [zpow_natCast]; push_cast; ring
  have c2s : (2:ℚ) ^ ((nbits q.den : ℤ) + 1) = ((2 ^ (nbits q.den + 1) : ℕ) : ℚ) := by
    rw [show ((nbits q.den : ℤ) + 1) = ((nbits q.den + 1 : ℕ) : ℤ) by push_cast; ring,
        zpow_natCast]
    push_cast; ring
  rw [qexp]
  by_cases hc : 2 ^ nbits q.den * q.num.natAbs < 2 ^ nbits q.num.natAbs * q.den
  · simp only [hc, if_true]
    constructor
    · have key : 2 ^ nbits q.num.natAbs * q.den ≤ q.num.natAbs * 2 ^ (nbits q.den + 1) := by
        calc 2 ^ nbits q.num.natAbs * q.den ≤ q.num.natAbs * q.den :=
              Nat.mul_le_mul_right _ hal
          _ ≤ q.num.natAbs * 2 ^ (nbits q.den + 1) := Nat.mul_le_mul_left _ hdr.le
      rw [habs, show ((nbits q.num.natAbs : ℤ) - nbits q.den - 1) =
          (nbits q.num.natAbs : ℤ) - ((nbits q.den : ℤ) + 1) by ring,
          zpow_sub₀ (by norm_num : (2:ℚ) ≠ 0),
          div_le_div_iff₀ (by positivity) hDpos, c1, c2s]
      exact_mod_cast key
    · rw [habs, show ((nbits q.num.natAbs : ℤ) - nbits q.den - 1 + 1) =
          (nbits q.num.natAbs : ℤ) - nbits q.den by ring,
          zpow_sub₀ (by norm_num : (2:ℚ) ≠ 0),
          div_lt_div_iff₀ hDpos (by positivity), c1, c2]
      have hc' : q.num.natAbs * 2 ^ nbits q.den < 2 ^ nbits q.num.natAbs * q.den := by
        rw [Nat.mul_comm] at hc; exact hc
      exact_mod_cast hc'
  · simp only [hc, if_false]
    push_neg at hc
    constructor
    · rw [habs, zpow_sub₀ (by norm_num : (2:ℚ) ≠ 0),
          div_le_div_iff₀ (by positivity) hDpos, c1, c2]
      have hc' : 2 ^ nbits q.num.natAbs * q.den ≤ q.num.natAbs * 2 ^ nbits q.den := by
        rw [Nat.mul_comm q.num.natAbs _]; exact hc
      exact_mod_cast hc'
    · have key : q.num.natAbs * 2 ^ nbits q.den < 2 ^ (nbits q.num.natAbs + 1) * q.den := by
        calc q.num.natAbs * 2 ^ nbits q.den
            < 2 ^ (nbits q.num.natAbs + 1) * 2 ^ nbits q.den :=
              Nat.mul_lt_mul_of_lt_of_le har (le_refl _) (Nat.pos_pow_of_pos _ (by norm_num))
          _ ≤ 2 ^ (nbits q.num.natAbs + 1) * q.den := Nat.mul_le_mul_left _ hdl
      rw [habs, show ((nbits q.num.natAbs : ℤ) - nbits q.den + 1) =
          ((nbits q.num.natAbs : ℤ) + 1) - nbits q.den by ring,
          zpow_sub₀ (by norm_num : (2:ℚ) ≠ 0),
          div_lt_div_iff₀ hDpos (by positivity), c1s, c2]
      exact_mod_cast key

theorem qexp_eq {q : ℚ} {e : ℤ} (hq : q ≠ 0)
    (h1 : (2 : ℚ) ^ e ≤ |q|) (h2 : |q| < (2 : ℚ) ^ (e + 1)) : qexp q = e := by
  obtain ⟨hl, hr⟩ := qexp_spec hq
  by_contra hne
  rcases lt_or_gt_of_ne hne with h | h
  · have : (2:ℚ) ^ (qexp q + 1) ≤ 2 ^ e :=
      zpow_le_zpow_right₀ (by norm_num) (by omega)
    linarith
  · have : (2:ℚ) ^ (e + 1) ≤ 2 ^ qexp q :=
      zpow_le_zpow_right₀ (by norm_num) (by omega)
    linarith

theorem flQ_zero : flQ 0 = 0 := by simp [flQ]

theorem flQ_eq' {q : ℚ} (hq : q ≠ 0) :
    flQ q = (rne (q * (2:ℚ) ^ (52 - qexp q)) : ℚ) * (2:ℚ) ^ (qexp q - 52) := by
  rw [flQ, if_neg hq, mulPow2_eq, mulPow2_eq]

theorem flQ_fix {q : ℚ} (hq : q ≠ 0) (m : ℤ)
    (hm : q * (2:ℚ) ^ (52 - qexp q) = (m : ℚ)) : flQ q = q := by
  rw [flQ_eq' hq, hm, rne_intCast, ← hm, mul_assoc, ← zpow_add₀ (by norm_num : (2:ℚ) ≠ 0)]
  norm_num

theorem flQ_err {q : ℚ} (hq : q ≠ 0) :
    |flQ q - q| ≤ (2:ℚ) ^ (qexp q - 52) / 2 := by
  rw [flQ_eq' hq]
  set x := q * (2:ℚ) ^ (52 - qexp q) with hx
  have hinv : x * (2:ℚ) ^ (qexp q - 52) = q := by
    rw [hx, mul_assoc, ← zpow_add₀ (by norm_num : (2:ℚ) ≠ 0)]
    norm_num
  have key : (rne x : ℚ) * (2:ℚ) ^ (qexp q - 52) - q = ((rne x : ℚ) - x) * (2:ℚ) ^ (qexp q - 52) := by
    rw [sub_mul, hinv]
  rw [key, abs_mul, abs_of_pos (show (0:ℚ) < (2:ℚ) ^ (qexp q - 52) by positivity)]
  calc |(rne x : ℚ) - x| * (2:ℚ) ^ (qexp q - 52)
      ≤ (1 / 2) * (2:ℚ) ^ (qexp q - 52) :=
        mul_le_mul_of_nonneg_right (rne_err x) (by positivity)
    _ = (2:ℚ) ^ (qexp q - 52) / 2 := by ring

theorem flQ_intCast {n : ℤ} (hn : |n| ≤ 2 ^ 53) : flQ (n : ℚ) = (n : ℚ) := by
  by_cases h0 : n = 0
  · simp [h0, flQ_zero]
  have hq : (n : ℚ) ≠ 0 := Int.cast_ne_zero.mpr h0
  have habs : |(n : ℚ)| = ((|n| : ℤ) : ℚ) := by rw [Int.cast_abs]
  have hp53 : ((2 ^ 53 : ℤ) : ℚ) = (2:ℚ) ^ (53 : ℤ) := by
    rw [show ((53:ℤ)) = ((53:ℕ):ℤ) by norm_num, zpow_natCast]
    push_cast; ring
  have hle : |(n:ℚ)| ≤ (2:ℚ) ^ (53 : ℤ) := by
    rw [habs, ← hp53]
    exact_mod_cast hn
  obtain ⟨hl, hr⟩ := qexp_spec hq
  have he53 : qexp (n : ℚ) ≤ 53 := by
    by_contra hcon
    push_neg at hcon
    have h1 : (2:ℚ) ^ (54 : ℤ) ≤ 2 ^ qexp (n:ℚ) :=
      zpow_le_zpow_right₀ (by norm_num) (by omega)
    have h3 : (2:ℚ) ^ (53:ℤ) < 2 ^ (54:ℤ) :=
      zpow_lt_zpow_right₀ (by norm_num) (by omega)
    linarith
  by_cases he : qexp (n : ℚ) ≤ 52
  · apply flQ_fix hq (n * 2 ^ (52 - qexp (n:ℚ)).toNat)
    push_cast
    rw [← zpow_natCast (2:ℚ) (52 - qexp (n:ℚ)).toNat, Int.toNat_of_nonneg (by omega)]
  · have he53' : qexp (n : ℚ) = 53 := by omega
    have habs53 : |n| = 2 ^ 53 := by
      have h1 : (2:ℚ) ^ (53:ℤ) ≤ |(n:ℚ)| := by rw [← he53']; exact hl
      have h2 : ((|n| : ℤ) : ℚ) = ((2 ^ 53 : ℤ) : ℚ) := by
        rw [← habs, hp53]; linarith
      exact_mod_cast h2
    rcases (abs_eq (by positivity : (0:ℤ) ≤ 2 ^ 53)).mp habs53 with h | h
    · subst h
      apply flQ_fix hq (2 ^ 52)
      rw [he53', show ((52:ℤ) - 53) = -1 by norm_num, zpow_neg, zpow_one]
      push_cast
      norm_num
    · subst h
      apply flQ_fix hq (-(2 ^ 52))
      rw [he53', show ((52:ℤ) - 53) = -1 by norm_num, zpow_neg, zpow_one]
      push_cast
      norm_num

theorem rne_neg (q : ℚ) : rne (-q) = -rne q := by
  have hf0 : (0:ℚ) ≤ q - ⌊q⌋ := by have := Int.floor_le q; linarith
  have hf1 : q - ⌊q⌋ < 1 := by have := Int.lt_floor_add_one q; linarith
  by_cases hz : q - ⌊q⌋ = 0
  · have h1 : rne q = ⌊q⌋ := by
      simp only [rne]
      rw [if_pos (show q - (⌊q⌋:ℚ) < 1/2 by linarith)]
    have h2 : rne (-q) = -⌊q⌋ := by
      have hcast : -q = ((-⌊q⌋ : ℤ) : ℚ) := by push_cast; linarith
      rw [hcast, rne_intCast]
    rw [h1, h2]
  · have hr0 : 0 < q - (⌊q⌋:ℚ) := lt_of_le_of_ne hf0 (Ne.symm hz)
    have hfneg : ⌊-q⌋ = -⌊q⌋ - 1 := by
      apply Int.floor_eq_iff.mpr
      constructor
      · push_cast; linarith
      · push_cast; linarith
    simp only [rne, hfneg]
    have hc : -q - ((-⌊q⌋ - 1 : ℤ) : ℚ) = 1 - (q - ⌊q⌋) := by push_cast; ring
    rw [hc]
    by_cases hlt : q - (⌊q⌋:ℚ) < 1/2
    · rw [if_pos hlt, if_neg (show ¬(1 - (q - (⌊q⌋:ℚ)) < 1/2) by intro h; linarith),
          if_pos (show 1/2 < 1 - (q - (⌊q⌋:ℚ)) by linarith)]
      omega
    · by_cases hgt : 1/2 < q - (⌊q⌋:ℚ)
      · rw [if_neg hlt, if_pos hgt,
            if_pos (show 1 - (q - (⌊q⌋:ℚ)) < 1/2 by linarith)]
        omega
      · have htie : q - (⌊q⌋:ℚ) = 1/2 := by linarith
        rw [if_neg hlt, if_neg hgt,
            if_neg (show ¬(1 - (q - (⌊q⌋:ℚ)) < 1/2) by rw [htie]; norm_num),
            if_neg (show ¬(1/2 < 1 - (q - (⌊q⌋:ℚ))) by rw [htie]; norm_num)]
        by_cases hev : ⌊q⌋ % 2 = 0
        · rw [if_pos hev, if_neg (show ¬((-⌊q⌋ - 1) % 2 = 0) by omega)]
          omega
        · rw [if_neg hev, if_pos (show (-⌊q⌋ - 1) % 2 = 0 by omega)]
          omega

theorem qexp_neg (q : ℚ) : qexp (-q) = qexp q := by
  rw [qexp, qexp]
  simp [Rat.neg_num]

theorem flQ_neg (q : ℚ) : flQ (-q) = -flQ q := by
  by_cases hq : q = 0
  · simp [hq, flQ_zero]
  · rw [flQ_eq' (by simpa using hq), flQ_eq' hq, qexp_neg,
        show (-q * (2:ℚ) ^ (52 - qexp q)) = -(q * (2:ℚ) ^ (52 - qexp q)) by ring,
        rne_neg]
    push_cast; ring

theorem truncQ_intCast (m : ℤ) : truncQ (m : ℚ) = m := by
  rw [truncQ]
  by_cases h : (0:ℚ) ≤ (m:ℚ)
  · rw [if_pos h, Int.floor_intCast]
  · rw [if_neg h, show (-(m:ℚ)) = ((-m : ℤ) : ℚ) by push_cast; ring, Int.floor_intCast]
    ring

theorem truncQ_neg (q : ℚ) : truncQ (-q) = -truncQ q := by
  by_cases h0 : q = 0
  · simp [h0, truncQ]
  rw [truncQ, truncQ]
  by_cases hq : (0:ℚ) ≤ q
  · rw [if_pos hq, if_neg (by intro hc; exact h0 (le_antisymm (by linarith) hq)), neg_neg]
  · rw [if_neg hq, if_pos (by linarith [lt_of_not_le hq]), neg_neg]

theorem truncQ_floor_of_nonneg {q : ℚ} (h : 0 ≤ q) : truncQ q = ⌊q⌋ := by
  rw [truncQ, if_pos h]

theorem p53cast : ((2 ^ 53 : ℤ) : ℚ) = (2:ℚ) ^ (53 : ℤ) := by
  rw [show ((53:ℤ)) = ((53:ℕ):ℤ) by norm_num, zpow_natCast]
  push_cast; ring

theorem trunc_flQ_div_nonneg {a b : ℤ} (ha0 : 0 ≤ a) (hb0 : 0 < b)
    (ha : a < 2 ^ 53) (hb : b < 2 ^ 53) :
    truncQ (flQ ((a : ℚ) / (b : ℚ))) = a.tdiv b := by
  have hbq : (0:ℚ) < (b:ℚ) := by exact_mod_cast hb0
  have htdiv : a.tdiv b = a / b := Int.tdiv_eq_ediv ha0 hb0.le
  set k : ℤ := a / b with hkdef
  have hmod : b * k + a % b = a := Int.ediv_add_emod a b
  have hr0 : 0 ≤ a % b := Int.emod_nonneg a (by omega)
  have hrb : a % b < b := Int.emod_lt_of_pos a hb0
  have hk0 : 0 ≤ k := Int.ediv_nonneg ha0 hb0.le
  by_cases hdvd : a % b = 0
  · have hq : (a : ℚ) / (b : ℚ) = ((k : ℤ) : ℚ) := by
      have hab : (a : ℚ) = (b : ℚ) * (k : ℚ) := by
        have : b * k = a := by omega
        exact_mod_cast this.symm
      rw [hab]
      field_simp
    have hk53 : k ≤ a := Int.ediv_le_self b ha0
    rw [hq, flQ_intCast (by rw [abs_of_nonneg hk0]; omega), truncQ_intCast, htdiv]
  · have hr1 : 1 ≤ a % b := by omega
    have ha1 : 1 ≤ a := by
      rcases eq_or_lt_of_le ha0 with h | h
      · rw [← h] at hr1
        simp [Int.zero_emod] at hr1
      · omega
    set q : ℚ := (a : ℚ) / (b : ℚ) with hqdef
    have hq0 : 0 < q := div_pos (by exact_mod_cast ha1) hbq
    have hqk : q - (k:ℚ) = ((a % b : ℤ) : ℚ) / (b : ℚ) := by
      rw [hqdef]
      have hcast : (b:ℚ) * (k:ℚ) + ((a % b : ℤ) : ℚ) = (a:ℚ) := by exact_mod_cast hmod
      field_simp
      linarith
    have hlow : (1:ℚ)/(b:ℚ) ≤ q - (k:ℚ) := by
      rw [hqk, div_le_div_iff_of_pos_right hbq]
      exact_mod_cast hr1
    have hupp : (1:ℚ)/(b:ℚ) ≤ ((k:ℚ) + 1) - q := by
      have hq1 : ((k:ℚ) + 1) - q = ((b - a % b : ℤ) : ℚ) / (b : ℚ) := by
        have : ((b - a % b : ℤ) : ℚ) = (b:ℚ) - ((a % b : ℤ) : ℚ) := by push_cast; ring
        rw [this]
        rw [sub_div, div_self (ne_of_gt hbq)]
        have := hqk
        linarith
      rw [hq1, div_le_div_iff_of_pos_right hbq]
      exact_mod_cast (show (1:ℤ) ≤ b - a % b by omega)
    have hqne : q ≠ 0 := ne_of_gt hq0
    obtain ⟨hel, _⟩ := qexp_spec hqne
    rw [abs_of_pos hq0] at hel
    have hgb : (2:ℚ) ^ (qexp q) * (b:ℚ) ≤ (a:ℚ) := by
      rw [hqdef] at hel
      calc (2:ℚ) ^ (qexp q) * (b:ℚ) ≤ ((a:ℚ)/(b:ℚ)) * (b:ℚ) := by
            apply mul_le_mul_of_nonneg_right hel hbq.le
        _ = (a:ℚ) := by field_simp
    have haq : (a:ℚ) < (2:ℚ) ^ (53:ℤ) := by
      rw [← p53cast]
      exact_mod_cast ha
    have hgrid : (2:ℚ) ^ (qexp q - 52) / 2 < 1 / (b:ℚ) := by
      rw [div_lt_div_iff₀ (by norm_num) hbq]
      have h1 : (2:ℚ) ^ (qexp q - 52) * (b:ℚ) =
          ((2:ℚ) ^ (qexp q) * (b:ℚ)) * (2:ℚ) ^ (-52 : ℤ) := by
        rw [zpow_sub₀ (by norm_num : (2:ℚ) ≠ 0)]
        rw [zpow_neg]
        field_simp
      rw [h1]
      have h2 : ((2:ℚ) ^ (qexp q) * (b:ℚ)) * (2:ℚ) ^ (-52 : ℤ) <
          (2:ℚ) ^ (53:ℤ) * (2:ℚ) ^ (-52 : ℤ) := by
        apply mul_lt_mul_of_pos_right (lt_of_le_of_lt hgb haq) (by positivity)
      calc ((2:ℚ) ^ (qexp q) * (b:ℚ)) * (2:ℚ) ^ (-52 : ℤ)
          < (2:ℚ) ^ (53:ℤ) * (2:ℚ) ^ (-52 : ℤ) := h2
        _ = (2:ℚ) ^ (1:ℤ) := by
            rw [← zpow_add₀ (by norm_num : (2:ℚ) ≠ 0)]
            norm_num
        _ = 1 * 2 := by norm_num
    have herr := flQ_err hqne
    have herr' : |flQ q - q| < 1 / (b:ℚ) := lt_of_le_of_lt herr hgrid
    rw [abs_lt] at herr'
    have hfl_lt : flQ q < (k:ℚ) + 1 := by linarith
    have hfl_gt : (k:ℚ) < flQ q := by linarith
    have hfloor : ⌊flQ q⌋ = k := by
      apply Int.floor_eq_iff.mpr
      constructor
      · exact hfl_gt.le
      · exact_mod_cast hfl_lt
    rw [truncQ_floor_of_nonneg (by
      have : (0:ℚ) ≤ (k:ℚ) := by exact_mod_cast hk0
      linarith), hfloor, htdiv]

theorem trunc_flQ_div_posb {a b : ℤ} (ha : |a| < 2 ^ 53) (hbpos : 0 < b)
    (hb : b < 2 ^ 53) :
    truncQ (flQ ((a : ℚ) / (b : ℚ))) = a.tdiv b := by
  rcases le_or_lt 0 a with hapos | haneg
  · exact trunc_flQ_div_nonneg hapos hbpos
      (by rw [abs_of_nonneg hapos] at ha; omega) hb
  · have key := trunc_flQ_div_nonneg (a := -a) (b := b) (by omega) hbpos
      (by rw [abs_of_neg haneg] at ha; omega) hb
    have hcast : ((-a : ℤ) : ℚ) / (b:ℚ) = -((a:ℚ)/(b:ℚ)) := by push_cast; ring
    rw [hcast, flQ_neg, truncQ_neg, Int.neg_tdiv] at key
    omega

theorem trunc_flQ_div {a b : ℤ} (ha : |a| < 2 ^ 53) (hb : |b| < 2 ^ 53)
    (hb0 : b ≠ 0) :
    truncQ (flQ ((a : ℚ) / (b : ℚ))) = a.tdiv b := by
  rcases lt_or_lt_iff_ne.mpr hb0 with hbneg | hbpos
  · have key := trunc_flQ_div_posb (a := -a) (b := -b)
      (by rw [abs_neg]; exact ha) (by omega) (by rw [abs_of_neg hbneg] at hb; omega)
    have hcast : ((-a : ℤ) : ℚ) / ((-b : ℤ):ℚ) = (a:ℚ)/(b:ℚ) := by push_cast; ring
    rw [hcast, Int.neg_tdiv, Int.tdiv_neg, neg_neg] at key
    exact key
  · exact trunc_flQ_div_posb ha hbpos (by rw [abs_of_pos hbpos] at hb; omega)

theorem castI64_intCast {t : ℤ} (h : |t| < 2 ^ 63) :
    castI64 ((t : ℤ) : ℚ) = .ok t := by
  rw [castI64]
  simp only [truncQ_intCast]
  rw [if_neg (by rw [abs_lt] at h; push_neg; omega)]

theorem dAdd_exact {a b : ℤ} (ha : |a| < 2 ^ 53) (hb : |b| < 2 ^ 53)
    (hs : |a + b| < 2 ^ 53) :
    castI64 (dAdd (i64ToD a) (i64ToD b)) = .ok (a + b) := by
  rw [i64ToD, i64ToD, flQ_intCast ha.le, flQ_intCast hb.le, dAdd,
      show ((a:ℚ) + (b:ℚ)) = (((a + b : ℤ)) : ℚ) by push_cast; ring,
      flQ_intCast hs.le]
  exact castI64_intCast (by omega)

theorem dSub_exact {a b : ℤ} (ha : |a| < 2 ^ 53) (hb : |b| < 2 ^ 53)
    (hs : |a - b| < 2 ^ 53) :
    castI64 (dSub (i64ToD a) (i64ToD b)) = .ok (a - b) := by
  rw [i64ToD, i64ToD, flQ_intCast ha.le, flQ_intCast hb.le, dSub,
      show ((a:ℚ) - (b:ℚ)) = (((a - b : ℤ)) : ℚ) by push_cast; ring,
      flQ_intCast hs.le]
  exact castI64_intCast (by omega)

theorem dMul_exact {a b : ℤ} (ha : |a| < 2 ^ 53) (hb : |b| < 2 ^ 53)
    (hs : |a * b| < 2 ^ 53) :
    castI64 (dMul (i64ToD a) (i64ToD b)) = .ok (a * b) := by
  rw [i64ToD, i64ToD, flQ_intCast ha.le, flQ_intCast hb.le, dMul,
      show ((a:ℚ) * (b:ℚ)) = (((a * b : ℤ)) : ℚ) by push_cast; ring,
      flQ_intCast hs.le]
  exact castI64_intCast (by omega)

theorem dDiv_exact {a b : ℤ} (ha : |a| < 2 ^ 53) (hb : |b| < 2 ^ 53)
    (hb0 : b ≠ 0) :
    castI64 (dDiv (i64ToD a) (i64ToD b)) = .ok (a.tdiv b) := by
  rw [i64ToD, i64ToD, flQ_intCast ha.le, flQ_intCast hb.le, dDiv, castI64]
  simp only [trunc_flQ_div ha hb hb0]
  rw [if_neg ?hrange]
  case hrange =>
    have h1 : (a.tdiv b).natAbs = a.natAbs / b.natAbs := Int.natAbs_tdiv a b
    have h2 : a.natAbs / b.natAbs ≤ a.natAbs := Nat.div_le_self _ _
    have h3 : |a| = (a.natAbs : ℤ) := Int.abs_eq_natAbs a
    push_neg
    constructor <;> omega

theorem evalE_binary_ints (fs : FileSys) (fuel env : Nat) (st : EvalState)
    (op : BinOp) (hop1 : op ≠ .band) (hop2 : op ≠ .bor) (a b : ℤ) :
    evalE fs (fuel + 2) (.binary op (.intLit a) (.intLit b)) env st =
      (binOpValues op (.int a) (.int b), st) := by
  simp only [evalE, force]
  rw [if_neg (by simp [hop1]), if_neg (by simp [hop2])]

theorem pow62cast : ((2:ℚ)) ^ (62 : ℤ) = ((4611686018427387904 : ℤ) : ℚ) := by
  rw [show ((62:ℤ)) = ((62:ℕ):ℤ) by norm_num, zpow_natCast]
  norm_num

theorem pow63cast : ((2:ℚ)) ^ (63 : ℤ) = ((9223372036854775808 : ℤ) : ℚ) := by
  rw [show ((63:ℤ)) = ((63:ℕ):ℤ) by norm_num, zpow_natCast]
  norm_num

theorem qexp_big : qexp ((4611686018427387905 : ℤ) : ℚ) = 62 := by
  refine qexp_eq (by norm_num) ?_ ?_
  · rw [pow62cast, abs_of_pos (by norm_num)]
    norm_num
  · rw [show ((62:ℤ) + 1) = 63 by norm_num, pow63cast, abs_of_pos (by norm_num)]
    norm_num

theorem flQ_big : flQ ((4611686018427387905 : ℤ) : ℚ) = ((4611686018427387904 : ℤ) : ℚ) := by
  rw [flQ_eq' (by norm_num), qexp_big]
  have hx : ((4611686018427387905 : ℤ) : ℚ) * (2:ℚ) ^ ((52:ℤ) - 62) =
      (4611686018427387905 : ℚ) / 1024 := by
    rw [show ((52:ℤ) - 62) = -(10:ℤ) by norm_num, zpow_neg]
    rw [show ((2:ℚ) ^ (10:ℤ)) = 1024 by
      rw [show ((10:ℤ)) = ((10:ℕ):ℤ) by norm_num, zpow_natCast]; norm_num]
    push_cast
    ring
  rw [hx]
  have hrne : rne ((4611686018427387905 : ℚ) / 1024) = 4503599627370496 := by
    have hfl : ⌊(4611686018427387905 : ℚ) / 1024⌋ = 4503599627370496 := by
      rw [show ((4611686018427387905 : ℚ)) = ((4611686018427387905 : ℤ) : ℚ) by norm_num,
          show ((1024 : ℚ)) = ((1024 : ℕ) : ℚ) by norm_num,
          Rat.floor_intCast_div_natCast]
      norm_num
    simp only [rne, hfl]
    rw [if_pos (by push_cast; norm_num :
      (4611686018427387905 : ℚ)/1024 - ((4503599627370496:ℤ):ℚ) < 1/2)]
  rw [hrne]
  rw [show ((62:ℤ) - 52) = (10:ℤ) by norm_num,
      show ((2:ℚ) ^ (10:ℤ)) = 1024 by
        rw [show ((10:ℤ)) = ((10:ℕ):ℤ) by norm_num, zpow_natCast]; norm_num]
  norm_num

theorem flQ_pow62 : flQ ((4611686018427387904 : ℤ) : ℚ) = ((4611686018427387904 : ℤ) : ℚ) := by
  apply flQ_fix (by norm_num) (4503599627370496)
  have : qexp ((4611686018427387904 : ℤ) : ℚ) = 62 := by
    refine qexp_eq (by norm_num) ?_ ?_
    · rw [pow62cast, abs_of_pos (by norm_num)]
    · rw [show ((62:ℤ) + 1) = 63 by norm_num, pow63cast, abs_of_pos (by norm_num)]
      norm_num
  rw [this, show ((52:ℤ) - 62) = -(10:ℤ) by norm_num, zpow_neg]
  rw [show ((2:ℚ) ^ (10:ℤ)) = 1024 by
    rw [show ((10:ℤ)) = ((10:ℕ):ℤ) by norm_num, zpow_natCast]; norm_num]
  norm_num

/-- C8 (amended).  Integer arithmetic in evalBinaryOp is routed through
double: both operands are converted with static_cast<double> and the result
is cast back to int64_t.  The +, -, * and / results equal the exact 64-bit
sum, difference, product and truncated quotient whenever the operands (and,
for + - *, the exact result) have magnitude below 2 ^ 53, the bound up to
which the double projection is lossless; outside that range the claimed
exactness fails (see the counterexample). -/
theorem claim_C8 (fs : FileSys) (fuel env : Nat) (st : EvalState) (a b : ℤ)
    (ha : |a| < 2 ^ 53) (hb : |b| < 2 ^ 53) :
    (|a + b| < 2 ^ 53 →
      evalE fs (fuel + 2) (.binary .add (.intLit a) (.intLit b)) env st =
        (.ok (.int (a + b)), st)) ∧
    (|a - b| < 2 ^ 53 →
      evalE fs (fuel + 2) (.binary .sub (.intLit a) (.intLit b)) env st =
        (.ok (.int (a - b)), st)) ∧
    (|a * b| < 2 ^ 53 →
      evalE fs (fuel + 2) (.binary .mul (.intLit a) (.intLit b)) env st =
        (.ok (.int (a * b)), st)) ∧
    (b ≠ 0 →
      evalE fs (fuel + 2) (.binary .div (.intLit a) (.intLit b)) env st =
        (.ok (.int (a.tdiv b)), st)) := by
  refine ⟨fun hs => ?_, fun hs => ?_, fun hs => ?_, fun hb0 => ?_⟩
  · rw [evalE_binary_ints fs fuel env st .add (by decide) (by decide)]
    simp [binOpValues, toNumber, Value.isString, Value.isFloat, dAdd_exact ha hb hs, Except.map]
  · rw [evalE_binary_ints fs fuel env st .sub (by decide) (by decide)]
    simp [binOpValues, toNumber, Value.isString, Value.isFloat, dSub_exact ha hb hs, Except.map]
  · rw [evalE_binary_ints fs fuel env st .mul (by decide) (by decide)]
    simp [binOpValues, toNumber, Value.isString, Value.isFloat, dMul_exact ha hb hs, Except.map]
  · rw [evalE_binary_ints fs fuel env st .div (by decide) (by decide)]
    have hbq : i64ToD b ≠ 0 := by
      rw [i64ToD, flQ_intCast hb.le]
      exact_mod_cast hb0
    simp [binOpValues, toNumber, Value.isString, Value.isFloat, hbq, dDiv_exact ha hb hb0, Except.map]

/-- C8 counterexample: at a = 2 ^ 62 + 1, b = 0 the evaluator returns
2 ^ 62 for a + b — the double projection of the left operand already loses
the low bit — so the claim's exactness for all Int operands is false. -/
theorem claim_C8_counterexample :
    evalE (fun _ _ => none) 2
        (.binary .add (.intLit 4611686018427387905) (.intLit 0)) 0
        ⟨[{}], 0, "", [], []⟩ =
      (.ok (.int 4611686018427387904), ⟨[{}], 0, "", [], []⟩) ∧
    (4611686018427387904 : ℤ) ≠ 4611686018427387905 := by
  constructor
  · rw [show (2:Nat) = 0 + 2 by norm_num,
        evalE_binary_ints (fun _ _ => none) 0 0 _ .add (by decide) (by decide)]
    have hl : i64ToD 4611686018427387905 = ((4611686018427387904 : ℤ) : ℚ) := by
      rw [i64ToD]
      rw [show ((4611686018427387905 : ℤ) : ℚ) = (((4611686018427387905 : ℤ)) : ℚ) by norm_num]
      exact flQ_big
    have hr : i64ToD 0 = 0 := by
      rw [i64ToD]
      push_cast
      exact flQ_zero
    simp only [binOpValues, toNumber, Value.isString, Value.isFloat, hl, hr]
    rw [dAdd, add_zero, flQ_pow62, castI64_intCast (by rw [abs_of_pos (by norm_num)]; norm_num)]
    simp [Except.map]
  · norm_num

/-- C8 witness: the amended theorem applied at a = 1, b = 2 with every
hypothesis discharged concretely. -/
theorem claim_C8_witness :
    (|(1:ℤ)| < 2 ^ 53 ∧ |(2:ℤ)| < 2 ^ 53 ∧ |(1 + 2 : ℤ)| < 2 ^ 53 ∧ (2:ℤ) ≠ 0) ∧
    evalE (fun _ _ => none) 2 (.binary .add (.intLit 1) (.intLit 2)) 0
        ⟨[{}], 0, "", [], []⟩ = (.ok (.int 3), ⟨[{}], 0, "", [], []⟩) ∧
    evalE (fun _ _ => none) 2 (.binary .div (.intLit 1) (.intLit 2)) 0
        ⟨[{}], 0, "", [], []⟩ = (.ok (.int 0), ⟨[{}], 0, "", [], []⟩) := by
  refine ⟨⟨by norm_num, by norm_num, by norm_num, by norm_num⟩, ?_, ?_⟩
  · exact (claim_C8 (fun _ _ => none) 0 0 ⟨[{}], 0, "", [], []⟩ 1 2
      (by norm_num) (by norm_num)).1 (by norm_num)
  · have h := (claim_C8 (fun _ _ => none) 0 0 ⟨[{}], 0, "", [], []⟩ 1 2
      (by norm_num) (by norm_num)).2.2.2 (by norm_num)
    rwa [show (1:ℤ).tdiv 2 = 0 by decide] at h

theorem reflOkList_mem {vs : List Value} {v : Value}
    (h : reflOkList vs = true) (hv : v ∈ vs) : v.reflOk = true := by
  induction vs with
  | nil => cases hv
  | cons a rest ih =>
    rw [reflOkList, Bool.and_eq_true] at h
    rcases List.mem_cons.mp hv with rfl | hv'
    · exact h.1
    · exact ih h.2 hv'

theorem reflOkRecord_mem {fs : List (String × Value)} {k : String} {v : Value}
    (h : reflOkRecord fs = true) (hv : (k, v) ∈ fs) : v.reflOk = true := by
  induction fs with
  | nil => cases hv
  | cons a rest ih =>
    obtain ⟨k', v'⟩ := a
    rw [reflOkRecord, Bool.and_eq_true, Bool.and_eq_true] at h
    rcases List.mem_cons.mp hv with heq | hv'
    · injection heq with h1 h2
      subst h2
      exact h.1.1
    · exact ih h.2 hv'

theorem reflOkMap_mem {es : List (Value × Value)} {k v : Value}
    (h : reflOkMap es = true) (hv : (k, v) ∈ es) :
    k.reflOk = true ∧ v.reflOk = true := by
  induction es with
  | nil => cases hv
  | cons a rest ih =>
    obtain ⟨k', v'⟩ := a
    rw [reflOkMap, Bool.and_eq_true, Bool.and_eq_true, Bool.and_eq_true] at h
    rcases List.mem_cons.mp hv with heq | hv'
    · injection heq with h1 h2
      subst h1
      subst h2
      exact ⟨h.1.1.1, h.1.1.2⟩
    · exact ih h.2 hv'

theorem keyAbsent_mem {x : Value} {es : List (Value × Value)} {k v : Value}
    (h : keyAbsent x es = true) (hv : (k, v) ∈ es) :
    k.equals x = false ∧ x.equals k = false := by
  induction es with
  | nil => cases hv
  | cons a rest ih =>
    obtain ⟨k', v'⟩ := a
    rw [keyAbsent, Bool.and_eq_true, Bool.and_eq_true] at h
    rcases List.mem_cons.mp hv with heq | hv'
    · injection heq with h1 h2
      subst h1
      exact ⟨by simpa using h.1.1, by simpa using h.1.2⟩
    · exact ih h.2 hv'

theorem equalsList_self (vs : List Value)
    (h : ∀ v ∈ vs, v.equals v = true) : equalsList vs vs = true := by
  induction vs with
  | nil => simp [equalsList]
  | cons a rest ih =>
    rw [equalsList, Bool.and_eq_true]
    exact ⟨h a (by simp), ih (fun v hv => h v (by simp [hv]))⟩

theorem equalsRecordFind_self {k : String} {v : Value} {a : List (String × Value)}
    (ha : reflOkRecord a = true) (hmem : (k, v) ∈ a) (hv : v.equals v = true) :
    equalsRecordFind v k a = true := by
  induction a with
  | nil => cases hmem
  | cons hd rest ih =>
    obtain ⟨k', v'⟩ := hd
    rw [reflOkRecord, Bool.and_eq_true, Bool.and_eq_true] at ha
    rcases List.mem_cons.mp hmem with heq | hmem'
    · injection heq with h1 h2
      subst h1
      subst h2
      rw [equalsRecordFind, if_pos (beq_self_eq_true k)]
      exact hv
    · by_cases hk : (k' == k) = true
      · exfalso
        have hkeq : k' = k := by exact eq_of_beq hk
        have : rest.any (fun kv => kv.1 == k') = true := by
          apply List.any_eq_true.mpr
          exact ⟨(k, v), hmem', by rw [hkeq]; exact beq_self_eq_true k⟩
        rw [this] at ha
        simpa using ha.1.2
      · rw [equalsRecordFind, if_neg (by simpa using hk)]
        exact ih ha.2 hmem'

theorem equalsRecordSub_self {sub a : List (String × Value)}
    (ha : reflOkRecord a = true)
    (hsub : ∀ p ∈ sub, p ∈ a ∧ p.2.equals p.2 = true) :
    equalsRecordSub sub a = true := by
  induction sub with
  | nil => simp [equalsRecordSub]
  | cons hd rest ih =>
    obtain ⟨k, v⟩ := hd
    rw [equalsRecordSub, Bool.and_eq_true]
    obtain ⟨hmem, hv⟩ := hsub (k, v) (by simp)
    exact ⟨equalsRecordFind_self ha hmem hv,
           ih (fun p hp => hsub p (by simp [hp]))⟩

theorem equalsMapFind_self {k v : Value} {a : List (Value × Value)}
    (ha : reflOkMap a = true) (hmem : (k, v) ∈ a)
    (hk : k.equals k = true) (hv : v.equals v = true) :
    equalsMapFind v k a = true := by
  induction a with
  | nil => cases hmem
  | cons hd rest ih =>
    obtain ⟨k', v'⟩ := hd
    rw [reflOkMap, Bool.and_eq_true, Bool.and_eq_true, Bool.and_eq_true] at ha
    rcases List.mem_cons.mp hmem with heq | hmem'
    · injection heq with h1 h2
      subst h1
      subst h2
      rw [equalsMapFind, if_pos hk]
      exact hv
    · by_cases hke : (k'.equals k) = true
      · exfalso
        have := (keyAbsent_mem ha.1.2 hmem').2
        rw [hke] at this
        cases this
      · rw [equalsMapFind, if_neg (by simpa using hke)]
        exact ih ha.2 hmem'

theorem equalsMapSub_self {sub a : List (Value × Value)}
    (ha : reflOkMap a = true)
    (hsub : ∀ p ∈ sub, p ∈ a ∧ p.1.equals p.1 = true ∧ p.2.equals p.2 = true) :
    equalsMapSub sub a = true := by
  induction sub with
  | nil => simp [equalsMapSub]
  | cons hd rest ih =>
    obtain ⟨k, v⟩ := hd
    rw [equalsMapSub, Bool.and_eq_true]
    obtain ⟨hmem, hk, hv⟩ := hsub (k, v) (by simp)
    exact ⟨equalsMapFind_self ha hmem hk hv,
           ih (fun p hp => hsub p (by simp [hp]))⟩

theorem equals_refl (v : Value) (h : v.reflOk = true) : v.equals v = true := by
  match v with
  | .unit => simp [Value.equals]
  | .int a => simp [Value.equals]
  | .float a => simp [Value.equals]
  | .bool a => simp [Value.equals]
  | .str a => simp [Value.equals]
  | .list es =>
    rw [Value.equals]
    refine equalsList_self es (fun w hw => equals_refl w ?_)
    exact reflOkList_mem (by rw [Value.reflOk] at h; exact h) hw
  | .tuple es =>
    rw [Value.equals]
    refine equalsList_self es (fun w hw => equals_refl w ?_)
    exact reflOkList_mem (by rw [Value.reflOk] at h; exact h) hw
  | .adt t c fields =>
    rw [Value.equals, Bool.and_eq_true]
    refine ⟨beq_self_eq_true c, equalsList_self fields (fun w hw => equals_refl w ?_)⟩
    exact reflOkList_mem (by rw [Value.reflOk] at h; exact h) hw
  | .record fields =>
    rw [Value.equals, Bool.and_eq_true]
    refine ⟨by simp, ?_⟩
    refine equalsRecordSub_self (by rw [Value.reflOk] at h; exact h) ?_
    intro p hp
    match p, hp with
    | (k, w), hp =>
      exact ⟨hp, equals_refl w (reflOkRecord_mem (by rw [Value.reflOk] at h; exact h) hp)⟩
  | .map es =>
    rw [Value.equals, Bool.and_eq_true]
    refine ⟨by simp, ?_⟩
    refine equalsMapSub_self (by rw [Value.reflOk] at h; exact h) ?_
    intro p hp
    match p, hp with
    | (k, w), hp =>
      obtain ⟨hk, hw⟩ := reflOkMap_mem (by rw [Value.reflOk] at h; exact h) hp
      exact ⟨hp, equals_refl k hk, equals_refl w hw⟩
  | .closure p b e => rw [Value.reflOk] at h; cases h
  | .builtin n a i => rw [Value.reflOk] at h; cases h
  | .thunk c => rw [Value.reflOk] at h; cases h
termination_by sizeOf v
decreasing_by
  all_goals (first
    | (have hs := List.sizeOf_lt_of_mem hw; simp; omega)
    | (have hs := List.sizeOf_lt_of_mem hp; simp at hs ⊢; omega))

theorem force_of_reflOk {v : Value} (h : v.reflOk = true) : force v = .ok v := by
  cases v <;> first
    | rfl
    | (rw [Value.reflOk] at h; cases h)

/-- C1 (amended).  Value::equals is reflexive on every language value free
of closures, builtins and thunks (with the record/map key invariants the
evaluator maintains), and evaluating V == V on such a bound value yields
true; but closures, builtins and thunks are equal to nothing — V == V on
them is false even when both sides are the same object, because
Value::equals has no identity check and its default branch returns false. -/
theorem claim_C1 :
    (∀ v : Value, v.reflOk = true → v.equals v = true) ∧
    (∀ (params : List String) (body : Expr) (envId : Nat),
      (Value.closure params body envId).equals (.closure params body envId) = false) ∧
    (∀ (name : String) (arity : Int) (impl : BuiltinImpl),
      (Value.builtin name arity impl).equals (.builtin name arity impl) = false) ∧
    (∀ (c : Option Value), (Value.thunk c).equals (.thunk c) = false) ∧
    (∀ (fs : FileSys) (fuel env : Nat) (st : EvalState) (x : String) (v : Value),
      envGet st.frames (st.frames.length + 1) env x = some v →
      v.reflOk = true →
      evalE fs (fuel + 2) (.binary .eq (.ident x) (.ident x)) env st =
        (.ok (.bool true), st)) := by
  refine ⟨equals_refl, ?_, ?_, ?_, ?_⟩
  · intro params body envId; simp [Value.equals]
  · intro name arity impl; simp [Value.equals]
  · intro c; simp [Value.equals]
  · intro fs fuel env st x v hget hrefl
    have hforce : force v = .ok v := force_of_reflOk hrefl
    simp only [evalE, hget, hforce]
    rw [if_neg (by decide), if_neg (by decide)]
    simp only [binOpValues]
    rw [if_neg (by simp [Value.isString]), if_pos (by decide)]
    rw [equals_refl v hrefl]

/-- C1 counterexample: both sides of == resolve to the same closure bound to
f (reference-identical in the C++ heap, the same term here), yet the
comparison evaluates to false, refuting reflexivity for closures. -/
theorem claim_C1_counterexample :
    evalE (fun _ _ => none) 3 (.binary .eq (.ident "f") (.ident "f")) 0
      { frames := [{ bindings := [("f", .closure ["x"] (.ident "x") 0)] }], env := 0 } =
      (.ok (.bool false),
       { frames := [{ bindings := [("f", .closure ["x"] (.ident "x") 0)] }], env := 0 }) := by
  simp [evalE, envGet, umFind?, force, binOpValues, Value.equals, Value.isString]

/-- C1 witness: the amended theorem applied at a concrete callable-free
value and at a concrete environment binding. -/
theorem claim_C1_witness :
    ((Value.list [.int 1, .str "a"]).reflOk = true ∧
     (Value.list [.int 1, .str "a"]).equals (Value.list [.int 1, .str "a"]) = true) ∧
    (envGet [⟨[("x", Value.int 5)], [], [], [], none⟩] 2 0 "x" = some (Value.int 5) ∧
     (Value.int 5).reflOk = true) ∧
    evalE (fun _ _ => none) 3 (.binary .eq (.ident "x") (.ident "x")) 0
      ⟨[⟨[("x", Value.int 5)], [], [], [], none⟩], 0, "", [], []⟩ =
      (.ok (.bool true), ⟨[⟨[("x", Value.int 5)], [], [], [], none⟩], 0, "", [], []⟩) := by
  have h1 : (Value.list [.int 1, .str "a"]).reflOk = true := by
    simp [Value.reflOk, reflOkList]
  have hget : envGet [⟨[("x", Value.int 5)], [], [], [], none⟩] 2 0 "x" =
      some (Value.int 5) := by
    simp [envGet, umFind?]
  refine ⟨⟨h1, claim_C1.1 _ h1⟩, ⟨hget, by simp [Value.reflOk]⟩, ?_⟩
  exact claim_C1.2.2.2.2 (fun _ _ => none) 1 0
    ⟨[⟨[("x", Value.int 5)], [], [], [], none⟩], 0, "", [], []⟩ "x" (.int 5)
    hget (by simp [Value.reflOk])

/-- C9 (amended).  The lexer's keyword table contains exactly let, fn, if,
else, match, type, module, import, true and false; readIdentOrKeyword maps
each of them to its keyword token, while the words while, for, in, as and
const are absent from the table and are emitted as IDENT tokens carrying
their spelling. -/
theorem claim_C9 :
    ((readIdentOrKeyword "let".toList).1 = ⟨.LET, none⟩ ∧
     (readIdentOrKeyword "fn".toList).1 = ⟨.FN, none⟩ ∧
     (readIdentOrKeyword "if".toList).1 = ⟨.IF, none⟩ ∧
     (readIdentOrKeyword "else".toList).1 = ⟨.ELSE, none⟩ ∧
     (readIdentOrKeyword "match".toList).1 = ⟨.MATCH, none⟩ ∧
     (readIdentOrKeyword "type".toList).1 = ⟨.TYPE, none⟩ ∧
     (readIdentOrKeyword "module".toList).1 = ⟨.MODULE, none⟩ ∧
     (readIdentOrKeyword "import".toList).1 = ⟨.IMPORT, none⟩ ∧
     (readIdentOrKeyword "true".toList).1 = ⟨.TRUE, none⟩ ∧
     (readIdentOrKeyword "false".toList).1 = ⟨.FALSE, none⟩) ∧
    ((readIdentOrKeyword "while".toList).1 = ⟨.IDENT, some "while"⟩ ∧
     (readIdentOrKeyword "for".toList).1 = ⟨.IDENT, some "for"⟩ ∧
     (readIdentOrKeyword "in".toList).1 = ⟨.IDENT, some "in"⟩ ∧
     (readIdentOrKeyword "as".toList).1 = ⟨.IDENT, some "as"⟩ ∧
     (readIdentOrKeyword "const".toList).1 = ⟨.IDENT, some "const"⟩) := by
  refine ⟨⟨?_, ?_, ?_, ?_, ?_, ?_, ?_, ?_, ?_, ?_⟩, ?_, ?_, ?_, ?_, ?_⟩ <;> rfl

/-- C9 counterexample: the word while in identifier position is lexed as an
IDENT token, not as the WHILE keyword token the claim requires. -/
theorem claim_C9_counterexample :
    (readIdentOrKeyword "while".toList).1 = ⟨.IDENT, some "while"⟩ ∧
    TokType.IDENT ≠ TokType.WHILE := by
  exact ⟨rfl, by simp⟩

/-- C7 counterexample: redefining the const-marked name x with a const
binding succeeds and replaces the stored value, where the claim requires any
redefinition of a const name to fail and leave the binding unchanged. -/
theorem claim_C7_counterexample :
    Frame.define ⟨[("x", .int 1)], ["x"], [], [], none⟩ "x" (.int 2) true =
      .ok ⟨[("x", .int 2)], ["x"], [], [], none⟩ ∧
    umFind? ([("x", Value.int 2)]) "x" = some (.int 2) := by
  constructor
  · rfl
  · rfl

/-- C7 (amended).  Environment::define rejects (with the re-declaration
error, mutating nothing) only a non-const define of a name that is
const-marked in the current frame; a define whose new binding is itself
const always succeeds and overwrites the binding, const or not. -/
theorem claim_C7 :
    (∀ (f : Frame) (name : String) (v : Value),
      usMem f.constNames name = true →
      f.define name v false =
        .error (.runtime ("Cannot redeclare const '" ++ name ++ "' with let"))) ∧
    (∀ (f : Frame) (name : String) (v : Value),
      f.define name v true =
        .ok { f with bindings := umInsert f.bindings name v,
                     constNames := usInsert f.constNames name }) := by
  constructor
  · intro f name v h
    simp [Frame.define, h]
  · intro f name v
    simp [Frame.define]

/-- C7 witness: the amended theorem applied to a concrete frame with a
const binding. -/
theorem claim_C7_witness :
    usMem (["x"] : List String) "x" = true ∧
    Frame.define ⟨[("x", .int 1)], ["x"], [], [], none⟩ "x" (.int 2) false =
      .error (.runtime "Cannot redeclare const 'x' with let") := by
  refine ⟨by rfl, ?_⟩
  exact claim_C7.1 ⟨[("x", .int 1)], ["x"], [], [], none⟩ "x" (.int 2) rfl

/-- C2: evaluation of the code at the failing input.  When the module file
resolves and reads but fails to lex or parse, loadModule propagates the
error while the module name is still in loadingModules: the erase at
evaluator.cpp:294 only guards the read and the one inside the catch block
only guards declaration evaluation, so nothing removes the mark on this
path, contradicting the claimed rollback invariant. -/
theorem claim_C2 :
    loadModule (fun _ n => if n == "M" then some .lexParseFail else none) 5 "M"
        ⟨[{}], 0, "", [], []⟩ =
      (.error .lexParse, ⟨[{}], 0, "", ["M"], []⟩) ∧
    usMem ["M"] "M" = true := by
  constructor
  · simp [loadModule, umFind?, usMem, usInsert]
  · rfl

/-- C3: evaluation of the code at the failing input.  evalCall invokes a
built-in's body without consulting its declared arity: calling the
constructor SomeC (declared arity 1) with two arguments raises no
arity-mismatch error and silently builds an ADT value with two fields. -/
theorem claim_C3 :
    (evalProgram (fun _ _ => none) 10
        [.typeDef ⟨"Option", [], [⟨"NoneC", 0⟩, ⟨"SomeC", 1⟩]⟩,
         .expr (.call (.ident "SomeC") [.intLit 1, .intLit 2])]
        ⟨[{}], 0, "", [], []⟩).1 =
      .ok (.adt "Option" "SomeC" [.int 1, .int 2]) ∧
    (2 : Nat) ≠ 1 := by
  constructor
  · simp [evalProgram, evalProgramAux, evalE, evalArgs, evalDecl, defineTypeIn,
          defineCtors, defineVar, Frame.define, usMem, umInsert, usInsert,
          envGet, umFind?, force, applyBuiltin]
  · simp

/-- C4: evaluation of the code at the failing input.  RecordValue stores
fields in a std::unordered_map, so iteration and printing follow the
container's internal order (modelled after libstdc++, which links each new
key at the front of its node list), not the record literal's order: the
literal written b-then-a prints with a first. -/
theorem claim_C4 :
    (evalE (fun _ _ => none) 10 (.recordE [("b", .intLit 1), ("a", .intLit 2)]) 0
        ⟨[{}], 0, "", [], []⟩).1 =
      .ok (.record [("a", .int 2), ("b", .int 1)]) ∧
    (Value.record [("a", .int 2), ("b", .int 1)]).toStr = "\x7b a: 2, b: 1 \x7d" ∧
    "\x7b a: 2, b: 1 \x7d" ≠ "\x7b b: 1, a: 2 \x7d" := by
  refine ⟨?_, ?_, by simp⟩
  · simp [evalE, evalFieldsE, umInsert, umInsert.umOverwrite]
  · simp only [Value.toStr, toStrRecord]
    rfl

/-- C10.  For an assignment x = e where x is not bound anywhere in the
scope chain, evaluation fails with the undefined-variable error before
evaluating e: the result and final state are the same for every right-hand
side e, and the state is exactly the entry state, so no effect of e is
observable. -/
theorem claim_C10 (fs : FileSys) (fuel env : Nat) (st : EvalState)
    (name : String) (e : Expr)
    (h : envHas st.frames (st.frames.length + 1) env name = false) :
    evalE fs (fuel + 1) (.assign name e) env st =
      (.error (.runtime ("Undefined variable: " ++ name)), st) := by
  simp only [evalE, h]
  simp

/-- C10 witness: the theorem applied to an unbound name with a concrete
right-hand side. -/
theorem claim_C10_witness :
    envHas [({} : Frame)] 2 0 "y" = false ∧
    evalE (fun _ _ => none) 1 (.assign "y" (.intLit 7)) 0 ⟨[{}], 0, "", [], []⟩ =
      (.error (.runtime "Undefined variable: y"), ⟨[{}], 0, "", [], []⟩) := by
  refine ⟨by rfl, ?_⟩
  exact claim_C10 (fun _ _ => none) 0 0 ⟨[{}], 0, "", [], []⟩ "y" (.intLit 7) rfl

theorem evalProgramAux_noExpr (fs : FileSys) (ts : List DeclA) :
    ∀ (fuel : Nat) (r v : Value) (st st' : EvalState),
    noExprDecl ts = true →
    evalProgramAux fs fuel r ts st = (.ok v, st') → v = r := by
  induction ts with
  | nil =>
    intro fuel r v st st' _ h
    cases fuel with
    | zero => simp [evalProgramAux] at h
    | succ f =>
      simp [evalProgramAux] at h
      exact h.1.symm
  | cons d rest ih =>
    intro fuel r v st st' hno h
    cases fuel with
    | zero => simp [evalProgramAux] at h
    | succ f =>
      cases d with
      | expr e => simp [noExprDecl] at hno
      | typeDef td =>
        simp only [evalProgramAux] at h
        rcases hd : evalDecl fs f (.typeDef td) st with ⟨res, st1⟩
        rw [hd] at h
        cases res with
        | error err => simp at h
        | ok u => exact ih f r v st1 st' (by simpa [noExprDecl] using hno) h
      | moduleDef n b =>
        simp only [evalProgramAux] at h
        rcases hd : evalDecl fs f (.moduleDef n b) st with ⟨res, st1⟩
        rw [hd] at h
        cases res with
        | error err => simp at h
        | ok u => exact ih f r v st1 st' (by simpa [noExprDecl] using hno) h
      | importDecl n a =>
        simp only [evalProgramAux] at h
        rcases hd : evalDecl fs f (.importDecl n a) st with ⟨res, st1⟩
        rw [hd] at h
        cases res with
        | error err => simp at h
        | ok u => exact ih f r v st1 st' (by simpa [noExprDecl] using hno) h

theorem evalProgramAux_append_noExpr (fs : FileSys) (ds : List DeclA) :
    ∀ (ts : List DeclA) (fuel : Nat) (r v : Value) (st st' : EvalState),
    noExprDecl ts = true →
    evalProgramAux fs fuel r (ds ++ ts) st = (.ok v, st') →
    ∃ st'', evalProgramAux fs fuel r ds st = (.ok v, st'') := by
  induction ds with
  | nil =>
    intro ts fuel r v st st' hno h
    have hvr := evalProgramAux_noExpr fs ts fuel r v st st' hno (by simpa using h)
    subst hvr
    cases fuel with
    | zero => simp [evalProgramAux] at h
    | succ f => exact ⟨st, by rw [evalProgramAux]⟩
  | cons d rest ih =>
    intro ts fuel r v st st' hno h
    cases fuel with
    | zero => simp [evalProgramAux] at h
    | succ f =>
      cases d with
      | expr e =>
        simp only [List.cons_append, evalProgramAux] at h
        simp only [evalProgramAux]
        rcases he : evalE fs f e st.env st with ⟨res, st1⟩
        rw [he] at h
        cases res with
        | error err => simp at h
        | ok w =>
          simp only at h
          obtain ⟨st'', hrest⟩ := ih ts f w v st1 st' hno h
          exact ⟨st'', by simpa using hrest⟩
      | typeDef td =>
        simp only [List.cons_append, evalProgramAux] at h
        simp only [evalProgramAux]
        rcases hd : evalDecl fs f (.typeDef td) st with ⟨res, st1⟩
        rw [hd] at h
        cases res with
        | error err => simp at h
        | ok u =>
          simp only at h
          obtain ⟨st'', hrest⟩ := ih ts f r v st1 st' hno h
          exact ⟨st'', by simpa using hrest⟩
      | moduleDef n b =>
        simp only [List.cons_append, evalProgramAux] at h
        simp only [evalProgramAux]
        rcases hd : evalDecl fs f (.moduleDef n b) st with ⟨res, st1⟩
        rw [hd] at h
        cases res with
        | error err => simp at h
        | ok u =>
          simp only at h
          obtain ⟨st'', hrest⟩ := ih ts f r v st1 st' hno h
          exact ⟨st'', by simpa using hrest⟩
      | importDecl n a =>
        simp only [List.cons_append, evalProgramAux] at h
        simp only [evalProgramAux]
        rcases hd : evalDecl fs f (.importDecl n a) st with ⟨res, st1⟩
        rw [hd] at h
        cases res with
        | error err => simp at h
        | ok u =>
          simp only at h
          obtain ⟨st'', hrest⟩ := ih ts f r v st1 st' hno h
          exact ⟨st'', by simpa using hrest⟩

/-- C5 (amended).  eval(Program) keeps the value of the most recent
expression declaration in a running accumulator that non-expression
declarations never reset: dropping a trailing block of non-expression
declarations does not change a successful program's value, and a program
whose declarations contain no expression declaration evaluates to unit. -/
theorem claim_C5 :
    (∀ (fs : FileSys) (fuel : Nat) (ds ts : List DeclA) (st st' : EvalState) (v : Value),
      noExprDecl ts = true →
      evalProgram fs fuel (ds ++ ts) st = (.ok v, st') →
      ∃ st'', evalProgram fs fuel ds st = (.ok v, st'')) ∧
    (∀ (fs : FileSys) (fuel : Nat) (ts : List DeclA) (st st' : EvalState) (v : Value),
      noExprDecl ts = true →
      evalProgram fs fuel ts st = (.ok v, st') → v = .unit) := by
  constructor
  · intro fs fuel ds ts st st' v hno h
    exact evalProgramAux_append_noExpr fs ds ts fuel .unit v st st' hno h
  · intro fs fuel ts st st' v hno h
    exact evalProgramAux_noExpr fs ts fuel .unit v st st' hno h

/-- C5 counterexample: a program whose last declaration is a type
definition preceded by the expression 2 evaluates to 2, not to the unit
value the claim requires when the last declaration is not an expression. -/
theorem claim_C5_counterexample :
    (evalProgram (fun _ _ => none) 5
        [.expr (.intLit 2), .typeDef ⟨"T", [], []⟩] ⟨[{}], 0, "", [], []⟩).1 =
      .ok (.int 2) ∧
    Value.int 2 ≠ Value.unit := by
  constructor
  · simp [evalProgram, evalProgramAux, evalE, evalDecl, defineTypeIn, defineCtors,
          umInsert, umInsert.umOverwrite]
  · simp

/-- C5 witness: the amended theorem applied to a concrete program with a
trailing type definition. -/
theorem claim_C5_witness :
    noExprDecl [DeclA.typeDef ⟨"T", [], []⟩] = true ∧
    evalProgram (fun _ _ => none) 5
        ([.expr (.intLit 2)] ++ [.typeDef ⟨"T", [], []⟩]) ⟨[{}], 0, "", [], []⟩ =
      (.ok (.int 2), ⟨[⟨[], [], [("T", ⟨"T", [], []⟩)], [], none⟩], 0, "", [], []⟩) ∧
    ∃ st'', evalProgram (fun _ _ => none) 5 [.expr (.intLit 2)]
        ⟨[{}], 0, "", [], []⟩ = (.ok (.int 2), st'') := by
  have hno : noExprDecl [DeclA.typeDef ⟨"T", [], []⟩] = true := by rfl
  have hfull : evalProgram (fun _ _ => none) 5
      ([.expr (.intLit 2)] ++ [.typeDef ⟨"T", [], []⟩]) ⟨[{}], 0, "", [], []⟩ =
      (.ok (.int 2), ⟨[⟨[], [], [("T", ⟨"T", [], []⟩)], [], none⟩], 0, "", [], []⟩) := by
    simp [evalProgram, evalProgramAux, evalE, evalDecl, defineTypeIn, defineCtors,
          umInsert, umInsert.umOverwrite]
  refine ⟨hno, hfull, ?_⟩
  exact claim_C5.1 (fun _ _ => none) 5 [.expr (.intLit 2)]
    [.typeDef ⟨"T", [], []⟩] ⟨[{}], 0, "", [], []⟩
    ⟨[⟨[], [], [("T", ⟨"T", [], []⟩)], [], none⟩], 0, "", [], []⟩ (.int 2) hno hfull


/-! ## Frame-parent preservation (C6)

Evaluation only ever appends frames to the store and rewrites the bindings
of existing frames; it never changes a frame parent link.  `framesOK`
captures exactly this, and the mutual induction below carries it through
every interpreter function. -/

theorem framesOK_refl (a : List Frame) : framesOK a a := ⟨le_rfl, fun _ _ => rfl⟩

theorem framesOK_trans {a b c : List Frame} (h1 : framesOK a b) (h2 : framesOK b c) :
    framesOK a c := by
  refine ⟨le_trans h1.1 h2.1, fun i hi => ?_⟩
  rw [h2.2 i (lt_of_lt_of_le hi h1.1), h1.2 i hi]

theorem framesOK_set {frames : List Frame} {i : Nat} {f f' : Frame}
    (hf : frames[i]? = some f) (hp : f'.parent = f.parent) :
    framesOK frames (frames.set i f') := by
  obtain ⟨hlen, _⟩ := List.getElem?_eq_some.mp hf
  refine ⟨by simp, fun j hj => ?_⟩
  by_cases hij : i = j
  · subst hij
    rw [List.getElem?_set_self hlen, hf]
    simp [hp]
  · rw [List.getElem?_set_ne hij]

theorem framesOK_append (frames : List Frame) (g : Frame) :
    framesOK frames (frames ++ [g]) := by
  refine ⟨by simp, fun i hi => ?_⟩
  rw [List.getElem?_append_left hi]

theorem pushFrame_framesOK (st : EvalState) (p : Nat) :
    framesOK st.frames (pushFrame st p).2.frames :=
  framesOK_append st.frames _

theorem defineVar_framesOK {st : EvalState} {envId : Nat} {name : String}
    {v : Value} {c : Bool} {st' : EvalState}
    (h : defineVar st envId name v c = .ok st') :
    framesOK st.frames st'.frames := by
  rw [defineVar] at h
  split at h
  · cases h
  · rename_i f hf
    split at h
    · cases h
    · rename_i f' hd
      cases h
      have hp : f'.parent = f.parent := by
        rw [Frame.define] at hd
        split at hd
        · cases hd
        · cases hd; rfl
      exact framesOK_set hf hp

theorem defineTypeIn_framesOK (st : EvalState) (envId : Nat) (name : String)
    (td : TypeDefA) : framesOK st.frames (defineTypeIn st envId name td).frames := by
  rw [defineTypeIn]
  split
  · exact framesOK_refl _
  · rename_i f hf
    exact framesOK_set hf rfl

theorem defineModuleIn_framesOK (st : EvalState) (envId : Nat) (name : String)
    (modId : Nat) : framesOK st.frames (defineModuleIn st envId name modId).frames := by
  rw [defineModuleIn]
  split
  · exact framesOK_refl _
  · rename_i f hf
    exact framesOK_set hf rfl

theorem envSet_framesOK {name : String} {v : Value} :
    ∀ {depth i : Nat} {frames frames' : List Frame},
    envSet frames depth i name v = .ok frames' → framesOK frames frames' := by
  intro depth
  induction depth with
  | zero => intro i frames frames' h; cases h
  | succ d ih =>
    intro i frames frames' h
    rw [envSet] at h
    split at h
    · cases h
    · rename_i f hf
      split at h
      · rename_i w hfind
        split at h
        · cases h
        · cases h
          exact framesOK_set hf rfl
      · rename_i hfind
        split at h
        · rename_i p hp
          exact ih h
        · cases h

theorem bindParams_framesOK {envId : Nat} :
    ∀ {ps : List String} {vs : List Value} {st st' : EvalState} {u : Except Err Unit},
    bindParams envId ps vs st = (u, st') → framesOK st.frames st'.frames := by
  intro ps
  induction ps with
  | nil =>
    intro vs st st' u h
    simp only [bindParams] at h
    cases h
    exact framesOK_refl _
  | cons p ps' ih =>
    intro vs st st' u h
    cases vs with
    | nil =>
      simp only [bindParams] at h
      cases h
      exact framesOK_refl _
    | cons v vs' =>
      simp only [bindParams] at h
      split at h
      · cases h; exact framesOK_refl _
      · rename_i st1 hd
        exact framesOK_trans (defineVar_framesOK hd) (ih h)

theorem defineCtors_framesOK {envId : Nat} {typeName : String} :
    ∀ {cs : List TypeCtorA} {st st' : EvalState} {u : Except Err Unit},
    defineCtors envId typeName cs st = (u, st') → framesOK st.frames st'.frames := by
  intro cs
  induction cs with
  | nil =>
    intro st st' u h
    rw [defineCtors] at h
    cases h
    exact framesOK_refl _
  | cons c rest ih =>
    intro st st' u h
    rw [defineCtors] at h
    split at h
    · cases h; exact framesOK_refl _
    · rename_i st1 hd
      exact framesOK_trans (defineVar_framesOK hd) (ih h)

mutual

theorem evalE_framesOK (fs : FileSys) :
    ∀ (fuel : Nat) (e : Expr) (env : Nat) (st : EvalState),
    framesOK st.frames (evalE fs fuel e env st).2.frames
  | 0, e, env, st => by
    simp only [evalE]
    exact framesOK_refl _
  | fuel + 1, e, env, st => by
    cases e with
    | intLit v => simp only [evalE]; exact framesOK_refl _
    | floatLit v => simp only [evalE]; exact framesOK_refl _
    | strLit v => simp only [evalE]; exact framesOK_refl _
    | boolLit v => simp only [evalE]; exact framesOK_refl _
    | lambda params body => simp only [evalE]; exact framesOK_refl _
    | ident name =>
      simp only [evalE]
      split
      · exact framesOK_refl _
      · exact framesOK_refl _
    | binary op l r =>
      simp only [evalE]
      split
      · split
        · rename_i err st1 heq
          have H1 : framesOK st.frames st1.frames := by
            have h := evalE_framesOK fs fuel l env st
            rw [heq] at h
            exact h
          exact H1
        · rename_i lv st1 heq
          have H1 : framesOK st.frames st1.frames := by
            have h := evalE_framesOK fs fuel l env st
            rw [heq] at h
            exact h
          split
          · exact H1
          · split
            · exact H1
            · split
              · exact H1
              · exact framesOK_trans H1 (evalE_framesOK fs fuel r env st1)
      · split
        · split
          · rename_i err st1 heq
            have H1 : framesOK st.frames st1.frames := by
              have h := evalE_framesOK fs fuel l env st
              rw [heq] at h
              exact h
            exact H1
          · rename_i lv st1 heq
            have H1 : framesOK st.frames st1.frames := by
              have h := evalE_framesOK fs fuel l env st
              rw [heq] at h
              exact h
            split
            · exact H1
            · split
              · exact H1
              · split
                · exact H1
                · exact framesOK_trans H1 (evalE_framesOK fs fuel r env st1)
        · split
          · rename_i err st1 heq
            have H1 : framesOK st.frames st1.frames := by
              have h := evalE_framesOK fs fuel l env st
              rw [heq] at h
              exact h
            exact H1
          · rename_i lv st1 heq
            have H1 : framesOK st.frames st1.frames := by
              have h := evalE_framesOK fs fuel l env st
              rw [heq] at h
              exact h
            split
            · exact H1
            · split
              · rename_i lv' heq2 err st2 heq3
                have H2 : framesOK st1.frames st2.frames := by
                  have h := evalE_framesOK fs fuel r env st1
                  rw [heq3] at h
                  exact h
                exact framesOK_trans H1 H2
              · rename_i lv' heq2 rv st2 heq3
                have H2 : framesOK st1.frames st2.frames := by
                  have h := evalE_framesOK fs fuel r env st1
                  rw [heq3] at h
                  exact h
                split
                · exact framesOK_trans H1 H2
                · exact framesOK_trans H1 H2
    | unary op operand =>
      simp only [evalE]
      split
      · rename_i err st1 heq
        have H1 : framesOK st.frames st1.frames := by
          have h := evalE_framesOK fs fuel operand env st
          rw [heq] at h
          exact h
        exact H1
      · rename_i v st1 heq
        have H1 : framesOK st.frames st1.frames := by
          have h := evalE_framesOK fs fuel operand env st
          rw [heq] at h
          exact h
        split
        · exact H1
        · split
          · split
            · exact H1
            · exact H1
            · exact H1
          · split
            · exact H1
            · exact H1
    | letE name value isConst =>
      simp only [evalE]
      split
      · rename_i err st1 heq
        have H1 : framesOK st.frames st1.frames := by
          have h := evalE_framesOK fs fuel value env st
          rw [heq] at h
          exact h
        exact H1
      · rename_i v st1 heq
        have H1 : framesOK st.frames st1.frames := by
          have h := evalE_framesOK fs fuel value env st
          rw [heq] at h
          exact h
        split
        · exact H1
        · rename_i st2 heq2
          exact framesOK_trans H1 (defineVar_framesOK heq2)
    | assign name value =>
      simp only [evalE]
      split
      · exact framesOK_refl _
      · split
        · rename_i err st1 heq
          have H1 : framesOK st.frames st1.frames := by
            have h := evalE_framesOK fs fuel value env st
            rw [heq] at h
            exact h
          exact H1
        · rename_i v st1 heq
          have H1 : framesOK st.frames st1.frames := by
            have h := evalE_framesOK fs fuel value env st
            rw [heq] at h
            exact h
          split
          · exact H1
          · rename_i frames' heq2
            exact framesOK_trans H1 (envSet_framesOK heq2)
    | fnDef name params body =>
      simp only [evalE]
      split
      · exact framesOK_refl _
      · rename_i st1 heq
        exact defineVar_framesOK heq
    | call callee args =>
      simp only [evalE]
      split
      · rename_i err st1 heq
        have H1 : framesOK st.frames st1.frames := by
          have h := evalE_framesOK fs fuel callee env st
          rw [heq] at h
          exact h
        exact H1
      · rename_i cv st1 heq
        have H1 : framesOK st.frames st1.frames := by
          have h := evalE_framesOK fs fuel callee env st
          rw [heq] at h
          exact h
        split
        · exact H1
        · split
          · rename_i err st2 heq3
            have H2 : framesOK st.frames st2.frames := by
              have h := evalArgs_framesOK fs fuel args env st1
              rw [heq3] at h
              exact framesOK_trans H1 h
            exact H2
          · rename_i argv st2 heq3
            have H2 : framesOK st.frames st2.frames := by
              have h := evalArgs_framesOK fs fuel args env st1
              rw [heq3] at h
              exact framesOK_trans H1 h
            split
            · exact H2
            · rename_i params body cenv hforce
              split
              · exact H2
              · have H3 : framesOK st.frames (pushFrame st2 cenv).2.frames :=
                  framesOK_trans H2 (pushFrame_framesOK st2 cenv)
                split
                · rename_i err st4 heq4
                  exact framesOK_trans H3 (bindParams_framesOK heq4)
                · rename_i u st4 heq4
                  exact framesOK_trans
                    (framesOK_trans H3 (bindParams_framesOK heq4))
                    (evalE_framesOK fs fuel body (pushFrame st2 cenv).1 st4)
            · exact H2
    | listE elements =>
      simp only [evalE]
      split
      · rename_i err st1 heq
        have H1 : framesOK st.frames st1.frames := by
          have h := evalArgs_framesOK fs fuel elements env st
          rw [heq] at h
          exact h
        exact H1
      · rename_i vs st1 heq
        have H1 : framesOK st.frames st1.frames := by
          have h := evalArgs_framesOK fs fuel elements env st
          rw [heq] at h
          exact h
        exact H1
    | recordE fields =>
      simp only [evalE]
      split
      · rename_i err st1 heq
        have H1 : framesOK st.frames st1.frames := by
          have h := evalFieldsE_framesOK fs fuel fields [] env st
          rw [heq] at h
          exact h
        exact H1
      · rename_i rec' st1 heq
        have H1 : framesOK st.frames st1.frames := by
          have h := evalFieldsE_framesOK fs fuel fields [] env st
          rw [heq] at h
          exact h
        exact H1
    | block exprs =>
      simp only [evalE]
      exact framesOK_trans (pushFrame_framesOK st env)
        (evalBlockItems_framesOK fs fuel exprs Value.unit (pushFrame st env).1
          (pushFrame st env).2)

theorem evalArgs_framesOK (fs : FileSys) :
    ∀ (fuel : Nat) (es : List Expr) (env : Nat) (st : EvalState),
    framesOK st.frames (evalArgs fs fuel es env st).2.frames
  | 0, es, env, st => by
    simp only [evalArgs]
    exact framesOK_refl _
  | fuel + 1, es, env, st => by
    cases es with
    | nil => simp only [evalArgs]; exact framesOK_refl _
    | cons e rest =>
      simp only [evalArgs]
      split
      · rename_i err st1 heq
        have H1 : framesOK st.frames st1.frames := by
          have h := evalE_framesOK fs fuel e env st
          rw [heq] at h
          exact h
        exact H1
      · rename_i v st1 heq
        have H1 : framesOK st.frames st1.frames := by
          have h := evalE_framesOK fs fuel e env st
          rw [heq] at h
          exact h
        split
        · rename_i err st2 heq2
          have H2 : framesOK st1.frames st2.frames := by
            have h := evalArgs_framesOK fs fuel rest env st1
            rw [heq2] at h
            exact h
          exact framesOK_trans H1 H2
        · rename_i vs st2 heq2
          have H2 : framesOK st1.frames st2.frames := by
            have h := evalArgs_framesOK fs fuel rest env st1
            rw [heq2] at h
            exact h
          exact framesOK_trans H1 H2

theorem evalFieldsE_framesOK (fs : FileSys) :
    ∀ (fuel : Nat) (flds : List (String × Expr)) (acc : List (String × Value))
      (env : Nat) (st : EvalState),
    framesOK st.frames (evalFieldsE fs fuel flds acc env st).2.frames
  | 0, flds, acc, env, st => by
    simp only [evalFieldsE]
    exact framesOK_refl _
  | fuel + 1, flds, acc, env, st => by
    cases flds with
    | nil => simp only [evalFieldsE]; exact framesOK_refl _
    | cons fld rest =>
      obtain ⟨name, e⟩ := fld
      simp only [evalFieldsE]
      split
      · rename_i err st1 heq
        have H1 : framesOK st.frames st1.frames := by
          have h := evalE_framesOK fs fuel e env st
          rw [heq] at h
          exact h
        exact H1
      · rename_i v st1 heq
        have H1 : framesOK st.frames st1.frames := by
          have h := evalE_framesOK fs fuel e env st
          rw [heq] at h
          exact h
        exact framesOK_trans H1
          (evalFieldsE_framesOK fs fuel rest (umInsert acc name v) env st1)

theorem evalBlockItems_framesOK (fs : FileSys) :
    ∀ (fuel : Nat) (es : List Expr) (result : Value) (env : Nat) (st : EvalState),
    framesOK st.frames (evalBlockItems fs fuel es result env st).2.frames
  | 0, es, result, env, st => by
    simp only [evalBlockItems]
    exact framesOK_refl _
  | fuel + 1, es, result, env, st => by
    cases es with
    | nil => simp only [evalBlockItems]; exact framesOK_refl _
    | cons e rest =>
      simp only [evalBlockItems]
      split
      · rename_i err st1 heq
        have H1 : framesOK st.frames st1.frames := by
          have h := evalE_framesOK fs fuel e env st
          rw [heq] at h
          exact h
        exact H1
      · rename_i v st1 heq
        have H1 : framesOK st.frames st1.frames := by
          have h := evalE_framesOK fs fuel e env st
          rw [heq] at h
          exact h
        exact framesOK_trans H1 (evalBlockItems_framesOK fs fuel rest v env st1)

theorem evalDecl_framesOK (fs : FileSys) :
    ∀ (fuel : Nat) (d : DeclA) (st : EvalState),
    framesOK st.frames (evalDecl fs fuel d st).2.frames
  | 0, d, st => by
    simp only [evalDecl]
    exact framesOK_refl _
  | fuel + 1, d, st => by
    cases d with
    | expr e =>
      simp only [evalDecl]
      split
      · rename_i err st1 heq
        have H1 : framesOK st.frames st1.frames := by
          have h := evalE_framesOK fs fuel e st.env st
          rw [heq] at h
          exact h
        exact H1
      · rename_i v st1 heq
        have H1 : framesOK st.frames st1.frames := by
          have h := evalE_framesOK fs fuel e st.env st
          rw [heq] at h
          exact h
        exact H1
    | typeDef td =>
      simp only [evalDecl]
      exact framesOK_trans (defineTypeIn_framesOK st st.env td.name td)
        (defineCtors_framesOK
          (u := (defineCtors (defineTypeIn st st.env td.name td).env td.name
            td.constructors (defineTypeIn st st.env td.name td)).1) rfl)
    | moduleDef name body =>
      simp only [evalDecl]
      have H1 : framesOK st.frames (pushFrame st st.env).2.frames :=
        pushFrame_framesOK st st.env
      split
      · rename_i err st2 heq
        have H2 : framesOK st.frames st2.frames := by
          have h := evalModBody_framesOK fs fuel body (pushFrame st st.env).1
            (pushFrame st st.env).2
          rw [heq] at h
          exact framesOK_trans H1 h
        exact H2
      · rename_i u st2 heq
        have H2 : framesOK st.frames st2.frames := by
          have h := evalModBody_framesOK fs fuel body (pushFrame st st.env).1
            (pushFrame st st.env).2
          rw [heq] at h
          exact framesOK_trans H1 h
        exact framesOK_trans H2
          (defineModuleIn_framesOK st2 st2.env name (pushFrame st st.env).1)
    | importDecl name aliasName =>
      simp only [evalDecl]
      split
      · rename_i err st1 heq
        have H1 : framesOK st.frames st1.frames := by
          have h := loadModule_framesOK fs fuel name st
          rw [heq] at h
          exact h
        exact H1
      · rename_i modId st1 heq
        have H1 : framesOK st.frames st1.frames := by
          have h := loadModule_framesOK fs fuel name st
          rw [heq] at h
          exact h
        exact framesOK_trans H1
          (defineModuleIn_framesOK st1 st1.env (aliasName.getD name) modId)

theorem evalModBody_framesOK (fs : FileSys) :
    ∀ (fuel : Nat) (es : List Expr) (env : Nat) (st : EvalState),
    framesOK st.frames (evalModBody fs fuel es env st).2.frames
  | 0, es, env, st => by
    simp only [evalModBody]
    exact framesOK_refl _
  | fuel + 1, es, env, st => by
    cases es with
    | nil => simp only [evalModBody]; exact framesOK_refl _
    | cons e rest =>
      simp only [evalModBody]
      split
      · rename_i err st1 heq
        have H1 : framesOK st.frames st1.frames := by
          have h := evalE_framesOK fs fuel e env st
          rw [heq] at h
          exact h
        exact H1
      · rename_i v st1 heq
        have H1 : framesOK st.frames st1.frames := by
          have h := evalE_framesOK fs fuel e env st
          rw [heq] at h
          exact h
        exact framesOK_trans H1 (evalModBody_framesOK fs fuel rest env st1)

theorem evalDecls_framesOK (fs : FileSys) :
    ∀ (fuel : Nat) (ds : List DeclA) (st : EvalState),
    framesOK st.frames (evalDecls fs fuel ds st).2.frames
  | 0, ds, st => by
    simp only [evalDecls]
    exact framesOK_refl _
  | fuel + 1, ds, st => by
    cases ds with
    | nil => simp only [evalDecls]; exact framesOK_refl _
    | cons d rest =>
      simp only [evalDecls]
      split
      · rename_i err st1 heq
        have H1 : framesOK st.frames st1.frames := by
          have h := evalDecl_framesOK fs fuel d st
          rw [heq] at h
          exact h
        exact H1
      · rename_i u st1 heq
        have H1 : framesOK st.frames st1.frames := by
          have h := evalDecl_framesOK fs fuel d st
          rw [heq] at h
          exact h
        exact framesOK_trans H1 (evalDecls_framesOK fs fuel rest st1)

theorem loadModule_framesOK (fs : FileSys) :
    ∀ (fuel : Nat) (name : String) (st : EvalState),
    framesOK st.frames (loadModule fs fuel name st).2.frames
  | 0, name, st => by
    simp only [loadModule]
    exact framesOK_refl _
  | fuel + 1, name, st => by
    simp only [loadModule]
    split
    · exact framesOK_refl _
    · split
      · exact framesOK_refl _
      · split
        · exact framesOK_refl _
        · exact framesOK_refl _
        · exact framesOK_refl _
        · rename_i dir p heq
          have H1 : framesOK st.frames
              (pushFrame { st with loadingModules := usInsert st.loadingModules name }
                st.env).2.frames :=
            pushFrame_framesOK _ _
          have key : ∀ (s : EvalState) (u : Except Err Unit) (s4 : EvalState),
              evalDecls fs fuel p s = (u, s4) → framesOK s.frames s4.frames :=
            fun s u s4 hh => by
              have h := evalDecls_framesOK fs fuel p s
              rw [hh] at h
              exact h
          split
          · rename_i err st4 heq2
            have H2 := key _ _ _ heq2
            exact framesOK_trans H1 H2
          · rename_i u st4 heq2
            have H2 := key _ _ _ heq2
            exact framesOK_trans H1 H2

end

theorem loadModule_parent {fs : FileSys} {fuel : Nat} {name : String}
    {st : EvalState} {envId : Nat} {st' : EvalState}
    (hmiss : umFind? st.moduleCache name = none)
    (h : loadModule fs (fuel + 1) name st = (.ok envId, st')) :
    envId = st.frames.length ∧
    st'.frames[st.frames.length]?.map Frame.parent = some (some st.env) := by
  simp only [loadModule, hmiss] at h
  split at h
  · simp at h
  · split at h
    · simp at h
    · simp at h
    · simp at h
    · rename_i dir p heq
      have key : ∀ (s : EvalState) (u4 : Except Err Unit) (s4 : EvalState),
          evalDecls fs fuel p s = (u4, s4) → framesOK s.frames s4.frames :=
        fun s u4 s4 hh => by
          have h0 := evalDecls_framesOK fs fuel p s
          rw [hh] at h0
          exact h0
      split at h
      · simp at h
      · rename_i u st4 heq2
        have hOK := key _ _ _ heq2
        rw [Prod.mk.injEq] at h
        obtain ⟨h1, h2⟩ := h
        injection h1 with h1
        subst h1
        subst h2
        refine ⟨rfl, ?_⟩
        show st4.frames[st.frames.length]?.map Frame.parent = some (some st.env)
        have hlt : st.frames.length <
            (st.frames ++ [({ parent := some st.env } : Frame)]).length := by
          simp
        have hrw := hOK.2 st.frames.length hlt
        rw [hrw]
        show ((st.frames ++ [({ parent := some st.env } : Frame)])[st.frames.length]?).map
          Frame.parent = some (some st.env)
        rw [List.getElem?_concat_length]
        rfl

/-- C6: for a cache-missing import that succeeds, the loaded module's
declarations are evaluated in a fresh frame (the next index to be
allocated) whose parent is the evaluator's CURRENT environment at import
time — the root only for top-level imports.  (Amended: the C++ code calls
env_->extend(), i.e. std::make_shared<Environment>(env_), so a nested
module load parents the new frame on the importing module's environment,
not on the root.) -/
theorem claim_C6 (fs : FileSys) (fuel : Nat) (name : String) (st : EvalState)
    (envId : Nat)
    (hmiss : umFind? st.moduleCache name = none)
    (h : (loadModule fs (fuel + 1) name st).1 = .ok envId) :
    envId = st.frames.length ∧
    (loadModule fs (fuel + 1) name st).2.frames[st.frames.length]?.map
      Frame.parent = some (some st.env) := by
  have h' : loadModule fs (fuel + 1) name st =
      (.ok envId, (loadModule fs (fuel + 1) name st).2) := by
    rw [← h]
  exact loadModule_parent hmiss h'

/-- C6 witness: loading the single module "M" from the root state allocates
frame 1 as a child of the root environment 0. -/
theorem claim_C6_witness :
    (1 : Nat) = rootState.frames.length ∧
    (loadModule singleModuleFS 2 "M" rootState).2.frames[rootState.frames.length]?.map
      Frame.parent = some (some rootState.env) :=
  claim_C6 singleModuleFS 1 "M" rootState 1 rfl rfl

/-- C6 counterexample to the claim as stated: in nestedModuleFS, loading "A"
from the root state triggers the nested import of "B" while "A" is being
loaded; "B"'s module frame (index 2) is created as a child of "A"'s module
environment (frame 1), not of the current root environment (frame 0), so the
claim's "child frame of the current root environment" is wrong for imports
issued during another module load. -/
theorem claim_C6_counterexample :
    (loadModule nestedModuleFS 5 "A" rootState).1 = .ok 1 ∧
    (loadModule nestedModuleFS 5 "A" rootState).2.frames[2]?.map Frame.parent
      = some (some 1) ∧
    (loadModule nestedModuleFS 5 "A" rootState).2.frames[2]?.map Frame.parent
      ≠ some (some rootState.env) := by
  refine ⟨rfl, rfl, by decide⟩

end Setsuna
